import Mathlib

/-!
Verification of the communication and proof-generation core of the IPA
three-party MPC runtime, against its specification.

The development shallowly embeds:
* the DZKP prover (`compute_proof`, `gen_challenge_and_recurse`,
  the `PartialEq` impl) from
  `ipa-core/src/protocol/ipa_prf/malicious_security/prover.rs`;
* the gateway send path (`GatewaySender::send`, `SendingEnd::send`,
  `GatewaySenders::get_or_create`) from
  `ipa-core/src/helpers/gateway/send.rs`;
* the receive buffer (`ReceiveBuffer::receive_request`,
  `ReceiveBuffer::receive_messages`) from `src/helpers/buffers.rs`;
* the `OrderingSender` ring and the Lagrange tables, whose sources are not
  part of this tree; those are modelled from the specification text and are
  marked as such in their doc comments.

Fields are `ZMod p`; machine integers are `ℕ`; fallible operations return
`Except`/`Option`; panics are an explicit outcome constructor.
-/

namespace IpaCore

/-! ## Field support (external library surface)

The field library is an external collaborator.  The spec requires a prime
field with `+`, `*`, `−`, `ZERO`, `ONE`; Lagrange interpolation additionally
needs multiplicative inverses of the (nonzero) canonical denominators.  We
model the field as `ZMod p` and inversion in Fermat form, which agrees with
the field inverse on every nonzero element of a prime field. -/

/-- Modelled from the spec: the prime-field inverse provided by the external
field library, in Fermat form `x ^ (p − 2)` so that it is kernel-computable. -/
def fpInv (p : ℕ) (x : ZMod p) : ZMod p := x ^ (p - 2)

/-! ## Lagrange support (`CanonicalLagrangeDenominator`, `LagrangeTable`)

`lagrange.rs` is not part of this tree; the definitions below are modelled
from spec §4.6. -/

/-- Modelled from the spec (§4.6, `CanonicalLagrangeDenominator`): the
canonical denominator `∏_{j≠i}(x_i − x_j)` for nodes `x_i = i`, `i ∈ [0, λ)`. -/
def canonicalDenominator (p lam i : ℕ) : ZMod p :=
  ((List.range lam).map
    (fun j => if j = i then (1 : ZMod p) else (i : ZMod p) - (j : ZMod p))).prod

/-- Modelled from the spec (§4.6): the `i`-th Lagrange basis polynomial over
nodes `0, …, λ−1`, evaluated at `x`: `∏_{j≠i}(x − x_j)` divided by the
canonical denominator. -/
def lagrangeBasis (p lam i : ℕ) (x : ZMod p) : ZMod p :=
  ((List.range lam).map
    (fun j => if j = i then (1 : ZMod p) else x - (j : ZMod p))).prod
    * fpInv p (canonicalDenominator p lam i)

/-- Modelled from the spec (§4.6): evaluate the degree-`(λ−1)` polynomial
through `(i, ys[i])`, `i ∈ [0, λ)`, at the point `x`. -/
def lagrangeEval (p lam : ℕ) (ys : List (ZMod p)) (x : ZMod p) : ZMod p :=
  ((List.range lam).map (fun i => ys.getD i 0 * lagrangeBasis p lam i x)).sum

/-- Modelled from the spec (§4.6, `LagrangeTable<F, λ, K>::eval` for the
prover's `K = λ−1` table): extrapolate a `λ`-point polynomial to the `K`
extra x-coordinates `λ, λ+1, …, λ+K−1`, producing the `2λ−1`-point total when
`K = λ−1`. -/
def lagrangeTableEval (p lam K : ℕ) (ys : List (ZMod p)) : List (ZMod p) :=
  (List.range K).map (fun k => lagrangeEval p lam ys ((lam + k : ℕ) : ZMod p))

/-! ## DZKP prover (`prover.rs`) -/

/-- One `(u, v)` chunk: a pair of `λ`-tuples of field elements
(`GenericArray<F, λ>` in the source). -/
abbrev UVChunk (p : ℕ) := List (ZMod p) × List (ZMod p)

/-- The per-chunk contribution accumulated by the loop body of
`ProofGenerator::compute_proof`: `u[i]·v[i]` at positions `i < λ` and
`P[i]·Q[i]` at positions `λ + i`, with `P`, `Q` the Lagrange extrapolations
of `u`, `v`. -/
def chunkContribution (p lam : ℕ) (c : UVChunk p) : List (ZMod p) :=
  (List.range lam).map (fun i => c.1.getD i 0 * c.2.getD i 0)
    ++ List.zipWith (fun x y => x * y)
        (lagrangeTableEval p lam (lam - 1) c.1)
        (lagrangeTableEval p lam (lam - 1) c.2)

/-- `ProofGenerator::compute_proof` (prover.rs:59-86): start from `2λ−1`
zeros and, for each chunk of the iterator, add `u[i]·v[i]` into position `i`
for `i < λ` and `P[i]·Q[i]` into position `λ+i` for `i < λ−1`. -/
def compute_proof (p lam : ℕ) (uv : List (UVChunk p)) : List (ZMod p) :=
  uv.foldl
    (fun proof c => List.zipWith (fun a b => a + b) proof (chunkContribution p lam c))
    (List.replicate (2 * lam - 1) (0 : ZMod p))

/-- One step of the repacking loop of
`ProofGenerator::gen_challenge_and_recurse` (prover.rs:114-127).  State is
`(index, new_u_chunk, new_v_chunk, output)`; when `index ≥ λ` the current
chunks are pushed and fresh zero chunks started, then the evaluated pair `e`
is written at the current index. -/
def recurseStep (p lam : ℕ)
    (st : ℕ × List (ZMod p) × List (ZMod p) × List (UVChunk p))
    (e : ZMod p × ZMod p) :
    ℕ × List (ZMod p) × List (ZMod p) × List (UVChunk p) :=
  let index := st.1
  let nu := st.2.1
  let nv := st.2.2.1
  let out := st.2.2.2
  if lam ≤ index then
    (1, (List.replicate lam (0 : ZMod p)).set 0 e.1,
        (List.replicate lam (0 : ZMod p)).set 0 e.2,
        out ++ [(nu, nv)])
  else
    (index + 1, nu.set index e.1, nv.set index e.2, out)

/-- The body of `ProofGenerator::gen_challenge_and_recurse` after the
challenge `r` has been derived (prover.rs:106-132): evaluate every `(u, v)`
chunk at `r` with the `K = 1` Lagrange table, then repack the resulting
pairs into `λ`-tuples, flushing the last (possibly only partially written)
chunk when nonempty. -/
def gen_challenge_and_recurse_r (p lam : ℕ) (r : ZMod p) (uv : List (UVChunk p)) :
    List (UVChunk p) :=
  let evals := uv.map (fun c => (lagrangeEval p lam c.1 r, lagrangeEval p lam c.2 r))
  let st := evals.foldl (recurseStep p lam)
    (0, List.replicate lam (0 : ZMod p), List.replicate lam (0 : ZMod p), [])
  if st.1 ≠ 0 then st.2.2.2 ++ [(st.2.1, st.2.2.1)] else st.2.2.2

/-- `ProofGenerator::gen_challenge_and_recurse` (prover.rs:88-133):
derive `r = hash_to_field(compute_hash(proof_left), compute_hash(proof_right),
λ as u128)` and recurse.  `compute_hash` and `hash_to_field` live in the
external hashing library and are passed in as parameters of digest type `D`. -/
def gen_challenge_and_recurse (p lam : ℕ) {D : Type}
    (compute_hash : List (ZMod p) → D)
    (hash_to_field : D → D → ℕ → ZMod p)
    (proof_left proof_right : List (ZMod p)) (uv : List (UVChunk p)) :
    List (UVChunk p) :=
  gen_challenge_and_recurse_r p lam
    (hash_to_field (compute_hash proof_left) (compute_hash proof_right) lam) uv

/-! ## `PartialEq<(&[u128], &[u128])> for ProofGenerator` (prover.rs:136-158)

Rust slice indexing panics when out of bounds, so the embedding returns
`Option Bool`: `none` is a panic, `some b` is the returned boolean.
`eqU` stands for the external `F: PartialEq<u128>` element comparison. -/

/-- The inner `for (j, u) in …` loop of the `eq` impl: compare the elements
of one stored `λ`-tuple against the slice `cmp` starting at flattened index
`base`, walking `j = 0, 1, …`.  Out-of-bounds slice access is `none`. -/
def pgEqRow (p : ℕ) (eqU : ZMod p → ℕ → Bool) (cmp : List ℕ) (base : ℕ) :
    List (ZMod p) → ℕ → Option Bool
  | [], _ => some true
  | x :: xs, j =>
    match cmp[base + j]? with
    | none => none
    | some c => if eqU x c then pgEqRow p eqU cmp base xs (j + 1) else some false

/-- The outer `for (i, uv_polynomial) in …` loop of the `eq` impl. -/
def pgEqRows (p : ℕ) (eqU : ZMod p → ℕ → Bool) (lam : ℕ) (cmpA cmpB : List ℕ) :
    List (UVChunk p) → ℕ → Option Bool
  | [], _ => some true
  | c :: rest, i =>
    match pgEqRow p eqU cmpA (i * lam) c.1 0 with
    | none => none
    | some false => some false
    | some true =>
      match pgEqRow p eqU cmpB (i * lam) c.2 0 with
      | none => none
      | some false => some false
      | some true => pgEqRows p eqU lam cmpA cmpB rest (i + 1)

/-- `impl PartialEq<(&[u128], &[u128])> for ProofGenerator` (prover.rs:142-157):
walk the generator's own `uv` vector, comparing each stored element against
the slice entry at the corresponding flattened index `i·λ + j`. -/
def pgEq (p : ℕ) (eqU : ZMod p → ℕ → Bool) (lam : ℕ)
    (uv : List (UVChunk p)) (cmpA cmpB : List ℕ) : Option Bool :=
  pgEqRows p eqU lam cmpA cmpB uv 0

/-! ## S4 sample data (spec §8, mirrored by the test in prover.rs) -/

/-- The S4 `U1` vector over `F_31`. -/
def sampleU1 : List (ZMod 31) :=
  [0, 30, 0, 16, 0, 1, 0, 15, 0, 0, 0, 16, 0, 30, 0, 16, 29, 1, 1, 15, 0, 0,
   1, 15, 2, 30, 30, 16, 0, 0, 30, 16]

/-- The S4 `V1` vector over `F_31`. -/
def sampleV1 : List (ZMod 31) :=
  [0, 0, 0, 30, 0, 0, 0, 1, 30, 30, 30, 30, 0, 0, 30, 30, 0, 30, 0, 30, 0, 0,
   0, 1, 0, 0, 1, 1, 0, 0, 1, 1]

/-- `zip_chunks` of the prover test: pair up consecutive `λ`-tuples of the
two flat vectors. -/
def zipChunks (p lam : ℕ) (a b : List (ZMod p)) : List (UVChunk p) :=
  List.zipWith (fun u v => (u, v)) (a.toChunks lam) (b.toChunks lam)

/-- The S4 `(u, v)` chunk list (8 chunks of 4 pairs each). -/
def sampleUV1 : List (UVChunk 31) := zipChunks 31 4 sampleU1 sampleV1

/-- A partially written chunk, padded with zeros up to length `λ` — the shape
of `new_u_chunk` / `new_v_chunk` in the repacking loop. -/
def padChunk (p lam : ℕ) (xs : List (ZMod p)) : List (ZMod p) :=
  xs ++ List.replicate (lam - xs.length) 0

/-- Functional description of the repacking loop: `us`/`vs` are the
already-written entries of the current chunk. -/
def repackGo (p lam : ℕ) :
    List (ZMod p) → List (ZMod p) → List (ZMod p × ZMod p) → List (UVChunk p)
  | us, vs, [] =>
    if us.length = 0 then [] else [(padChunk p lam us, padChunk p lam vs)]
  | us, vs, e :: rest =>
    if lam ≤ us.length then
      (padChunk p lam us, padChunk p lam vs) :: repackGo p lam [e.1] [e.2] rest
    else repackGo p lam (us ++ [e.1]) (vs ++ [e.2]) rest

/-! ## Helper roles, gates and channels -/

/-- `Role`: one of the three helpers, spec §3. -/
inductive Role : Type
  | h1
  | h2
  | h3
deriving DecidableEq, Repr

/-- `ChannelId = (peer_role, gate)`, spec §3; gates are modelled by their
nul-delimited ascii path. -/
structure ChannelId : Type where
  role : Role
  gate : String
deriving DecidableEq, Repr

/-- A message envelope: a record index plus its serialised payload bytes. -/
structure MessageEnvelope : Type where
  record_id : ℕ
  payload : List ℕ
deriving DecidableEq, Repr

/-- Association-list map with `HashMap` semantics (at most one binding per
key; `ainsert` replaces). -/
def alookup {κ α : Type} [DecidableEq κ] (m : List (κ × α)) (k : κ) : Option α :=
  (m.find? (fun e => e.1 = k)).map (fun e => e.2)

/-- Remove the binding for `k`, if any. -/
def aerase {κ α : Type} [DecidableEq κ] (m : List (κ × α)) (k : κ) : List (κ × α) :=
  m.filter (fun e => ¬ e.1 = k)

/-- Insert or replace the binding for `k`. -/
def ainsert {κ α : Type} [DecidableEq κ] (m : List (κ × α)) (k : κ) (v : α) :
    List (κ × α) :=
  (k, v) :: aerase m k

/-! ## ReceiveBuffer (`src/helpers/buffers.rs`)

The `oneshot::Sender` fulfillers are modelled by numeric identifiers; firing
one is recorded as an explicit `Fired` event.  A Rust panic is the
`PanicOr.panicked` outcome carrying the interpolated message. -/

/-- `ReceiveBufItem` (buffers.rs:26-31). -/
inductive ReceiveBufItem : Type
  | requested (sender : ℕ)
  | received (payload : List ℕ)
deriving DecidableEq, Repr

/-- Per-channel `record_id → item` map. -/
abbrev ChanMap := List (ℕ × ReceiveBufItem)

/-- `ReceiveBuffer` (buffers.rs:21-23): `channel → (record → item)`. -/
abbrev ReceiveBuffer := List (ChannelId × ChanMap)

/-- A one-shot fulfiller that has been fired with a payload. -/
structure Fired : Type where
  fulfiller : ℕ
  payload : List ℕ
deriving DecidableEq, Repr

/-- Computation outcome: a Rust panic with its message, or a value. -/
inductive PanicOr (α : Type) : Type
  | panicked (msg : String)
  | ok (v : α)
deriving DecidableEq, Repr

/-- `ReceiveBuffer::receive_request` (buffers.rs:85-106): on a vacant entry
store the fulfiller; on an occupied `Received` entry remove it and fire the
fulfiller with the stored payload; on an occupied `Requested` entry panic. -/
def receive_request (rb : ReceiveBuffer) (cid : ChannelId) (rid : ℕ)
    (sender : ℕ) : PanicOr (ReceiveBuffer × List Fired) :=
  let chan := (alookup rb cid).getD []
  match alookup chan rid with
  | some (ReceiveBufItem.requested _) =>
    PanicOr.panicked
      ("More than one request to receive a message for RecordId(" ++
        toString rid ++ ")")
  | some (ReceiveBufItem.received payload) =>
    PanicOr.ok (ainsert rb cid (aerase chan rid), [⟨sender, payload⟩])
  | none =>
    PanicOr.ok
      (ainsert rb cid (ainsert chan rid (ReceiveBufItem.requested sender)), [])

/-- One iteration of the loop in `ReceiveBuffer::receive_messages`
(buffers.rs:109-132): on a vacant entry store the payload; on an occupied
`Requested` entry remove it and fire the fulfiller; on an occupied
`Received` entry panic. -/
def receive_one (rb : ReceiveBuffer) (cid : ChannelId) (msg : MessageEnvelope) :
    PanicOr (ReceiveBuffer × List Fired) :=
  let chan := (alookup rb cid).getD []
  match alookup chan msg.record_id with
  | some (ReceiveBufItem.requested s) =>
    PanicOr.ok (ainsert rb cid (aerase chan msg.record_id), [⟨s, msg.payload⟩])
  | some (ReceiveBufItem.received _) =>
    PanicOr.panicked
      ("Duplicate message for the same record RecordId(" ++
        toString msg.record_id ++ ")")
  | none =>
    PanicOr.ok
      (ainsert rb cid
        (ainsert chan msg.record_id (ReceiveBufItem.received msg.payload)), [])

/-- `ReceiveBuffer::receive_messages` (buffers.rs:109-132): process the
batch in order; a panic aborts the loop. -/
def receive_messages (cid : ChannelId) :
    ReceiveBuffer → List MessageEnvelope → PanicOr (ReceiveBuffer × List Fired)
  | rb, [] => PanicOr.ok (rb, [])
  | rb, m :: ms =>
    match receive_one rb cid m with
    | PanicOr.panicked s => PanicOr.panicked s
    | PanicOr.ok (rb2, evs) =>
      match receive_messages cid rb2 ms with
      | PanicOr.panicked s => PanicOr.panicked s
      | PanicOr.ok (rb3, evs2) => PanicOr.ok (rb3, evs ++ evs2)


/-! ## OrderingSender (spec §4.1)

`ordering_sender.rs` is not part of this tree; the model below follows the
specification text.  Backpressure (writer suspension) affects only timing,
never the delivered byte stream, and is not modelled; a write that is not
permitted returns `none`.  `take_next` is the transport-facing poll. -/

/-- Modelled from the spec (§3, §4.1): the `OrderingSender` state, at record
granularity: the committed records with their serialised bytes, the first
record not yet delivered to the reader, the close bound, and the ring
geometry from the constructor. -/
structure OrderingSender : Type where
  slots : List (ℕ × List ℕ)
  next : ℕ
  closed_at : Option ℕ
  write_size : ℕ
  spare : ℕ
deriving DecidableEq, Repr

/-- `OrderingSender::new(write_size, spare)`: an empty open sender. -/
def OrderingSender.new (write_size spare : ℕ) : OrderingSender :=
  ⟨[], 0, none, write_size, spare⟩

/-- Modelled from the spec (§4.1): `send(i, bytes)` commits record `i`.
After `close(k)` no record `≥ k` may be written (records `< k` may still be
completed by writers already inside the window, which is what allows the
last record to be sent in any position of a permutation). -/
def OrderingSender.send (os : OrderingSender) (i : ℕ) (bytes : List ℕ) :
    Option OrderingSender :=
  match os.closed_at with
  | some k =>
    if k ≤ i then none else some { os with slots := os.slots ++ [(i, bytes)] }
  | none => some { os with slots := os.slots ++ [(i, bytes)] }

/-- Modelled from the spec (§4.1): `close(k)` marks record `k` as the upper
bound. -/
def OrderingSender.close (os : OrderingSender) (k : ℕ) : OrderingSender :=
  { os with closed_at := some k }

/-- Collect the longest contiguous run of committed records starting at
`next`; the fuel (number of committed slots) bounds the recursion. -/
def collectFrom (slots : List (ℕ × List ℕ)) : ℕ → ℕ → List ℕ × ℕ
  | next, 0 => ([], next)
  | next, fuel + 1 =>
    match alookup slots next with
    | none => ([], next)
    | some bytes =>
      let r := collectFrom slots (next + 1) fuel
      (bytes ++ r.1, r.2)

/-- Result of polling the transport-facing stream. -/
inductive TakeNext : Type
  | pending
  | ready (bytes : List ℕ)
  | closed
deriving DecidableEq, Repr

/-- Modelled from the spec (§4.1): `take_next` yields the longest contiguous
run of committed, unread bytes; pends when there is none; returns
end-of-stream once the close bound has been delivered. -/
def OrderingSender.take_next (os : OrderingSender) : TakeNext × OrderingSender :=
  let r := collectFrom os.slots os.next os.slots.length
  if r.1 = [] then
    match os.closed_at with
    | some k => if k ≤ os.next then (TakeNext.closed, os) else (TakeNext.pending, os)
    | none => (TakeNext.pending, os)
  else (TakeNext.ready r.1, { os with next := r.2 })

/-- An operation in an interleaved trace against one `OrderingSender`:
a write of record `i` (with its fixed serialised payload) or a reader poll. -/
inductive SendOp : Type
  | send (i : ℕ)
  | poll
deriving DecidableEq, Repr

/-- The record indices written by a trace, in order. -/
def sendIndices (ops : List SendOp) : List ℕ :=
  ops.filterMap (fun op => match op with | SendOp.send i => some i | SendOp.poll => none)

/-- Run a trace of writes and polls; a rejected write leaves the state
unchanged.  Returns the final state and the byte chunks the reader observed,
in order. -/
def runTrace (payload : ℕ → List ℕ) : OrderingSender → List SendOp →
    OrderingSender × List (List ℕ)
  | os, [] => (os, [])
  | os, SendOp.send i :: rest =>
    runTrace payload ((os.send i (payload i)).getD os) rest
  | os, SendOp.poll :: rest =>
    let r := os.take_next
    let rec2 := runTrace payload r.2 rest
    (rec2.1,
      (match r.1 with | TakeNext.ready b => [b] | _ => []) ++ rec2.2)

/-- Every committed slot holds the serialised payload of its record. -/
def SlotsCorrect (payload : ℕ → List ℕ) (os : OrderingSender) : Prop :=
  ∀ i b, alookup os.slots i = some b → b = payload i

/-! ## Gateway send path (`ipa-core/src/helpers/gateway/send.rs`) -/

/-- Modelled from the spec (§3): `TotalRecords`; its definition lives in
`helpers/mod.rs`, outside this tree. -/
inductive TotalRecords : Type
  | unspecified
  | specified (n : ℕ)
  | indeterminate
deriving DecidableEq, Repr

/-- Modelled from the spec: `Unspecified` is the only unspecified variant. -/
def TotalRecords.is_specified : TotalRecords → Bool
  | TotalRecords.unspecified => false
  | _ => true

def TotalRecords.is_indeterminate : TotalRecords → Bool
  | TotalRecords.indeterminate => true
  | _ => false

/-- Modelled from the spec (§3 invariant: writing record `n−1` triggers
`close(n)` when `total = Specified(n)`). -/
def TotalRecords.is_last (t : TotalRecords) (record_id : ℕ) : Bool :=
  match t with
  | TotalRecords.specified n => record_id + 1 = n
  | _ => false

/-- `GatewaySender` (send.rs:38-42). -/
structure GatewaySender : Type where
  channel_id : ChannelId
  ordering_tx : OrderingSender
  total_records : TotalRecords
deriving DecidableEq, Repr

/-- `Error::TooManyRecords` as surfaced by `GatewaySender::send`. -/
inductive SendError : Type
  | tooManyRecords (record_id : ℕ) (channel_id : ChannelId)
      (total_records : TotalRecords)
deriving DecidableEq, Repr

/-- Outcome of a gateway send: a panic, an error (carrying the unchanged
sender state), or success (carrying the updated sender state). -/
inductive GatewayOutcome : Type
  | panicked (msg : String)
  | errored (e : SendError) (g : GatewaySender)
  | sent (g : GatewaySender)
deriving DecidableEq, Repr

/-- `GatewaySender::send` (send.rs:57-85): assert the total is specified;
reject `record_id ≥ count` with `TooManyRecords` before touching the
`OrderingSender`; otherwise write the serialised message and, if this was
the last record, `close(record_id + 1)`. -/
def GatewaySender.send (g : GatewaySender) (record_id : ℕ) (msg : List ℕ) :
    GatewayOutcome :=
  if g.total_records.is_specified = false then
    GatewayOutcome.panicked "total_records cannot be unspecified when sending"
  else if (match g.total_records with
      | TotalRecords.specified count => decide (count ≤ record_id)
      | _ => false) then
    GatewayOutcome.errored
      (SendError.tooManyRecords record_id g.channel_id g.total_records) g
  else
    match g.ordering_tx.send record_id msg with
    | none => GatewayOutcome.panicked "write rejected by closed OrderingSender"
    | some os2 =>
      GatewayOutcome.sent
        { g with ordering_tx :=
            if g.total_records.is_last record_id then
              os2.close (record_id + 1)
            else os2 }

/-- Run a sequence of `GatewaySender::send` calls for the given records,
aborting on the first non-success outcome. -/
def runSends (payload : ℕ → List ℕ) : GatewaySender → List ℕ →
    Option GatewaySender
  | g, [] => some g
  | g, i :: rest =>
    match GatewaySender.send g i (payload i) with
    | GatewayOutcome.sent g2 => runSends payload g2 rest
    | _ => none

/-- Drain the transport stream with the given poll budget; returns the
observed chunks and whether end-of-stream was reached. -/
def drainLoop : OrderingSender → ℕ → List (List ℕ) × Bool
  | _, 0 => ([], false)
  | os, fuel + 1 =>
    match os.take_next with
    | (TakeNext.closed, _) => ([], true)
    | (TakeNext.pending, _) => ([], false)
    | (TakeNext.ready b, os2) =>
      let r := drainLoop os2 fuel
      (b :: r.1, r.2)

/-- The telemetry counters, keyed by the `(STEP, ROLE)` label pair. -/
structure Metrics : Type where
  records_sent : String × Role → ℕ
  bytes_sent : String × Role → ℕ

/-- Increment `RECORDS_SENT` by one and `BYTES_SENT` by the message size at
one `(STEP, ROLE)` label pair. -/
def bumpMetrics (m : Metrics) (gate : String) (role : Role) (size : ℕ) : Metrics :=
  { records_sent := fun k =>
      if k = (gate, role) then m.records_sent k + 1 else m.records_sent k,
    bytes_sent := fun k =>
      if k = (gate, role) then m.bytes_sent k + size else m.bytes_sent k }

/-- The typed façade `SendingEnd` (send.rs:25-30); the message type is
carried as its serialised size. -/
structure SendingEnd : Type where
  sender_role : Role
  channel_id : ChannelId
deriving DecidableEq, Repr

/-- `SendingEnd::send` (send.rs:122-134): call the inner
`GatewaySender::send`, then increment `RECORDS_SENT` and `BYTES_SENT`
tagged with the gate and role, then return the inner result — the counters
are incremented whether or not the inner call failed; only a panic (which
unwinds) skips them. -/
def SendingEnd.send (se : SendingEnd) (msgSize : ℕ) (g : GatewaySender)
    (met : Metrics) (record_id : ℕ) (msg : List ℕ) : GatewayOutcome × Metrics :=
  match GatewaySender.send g record_id msg with
  | GatewayOutcome.panicked s => (GatewayOutcome.panicked s, met)
  | GatewayOutcome.errored e g2 =>
    (GatewayOutcome.errored e g2,
      bumpMetrics met se.channel_id.gate se.sender_role msgSize)
  | GatewayOutcome.sent g2 =>
    (GatewayOutcome.sent g2,
      bumpMetrics met se.channel_id.gate se.sender_role msgSize)

/-- `GatewaySenders::get_or_create` (send.rs:141-188): on a hit return the
existing sender and no stream; on a miss construct one `OrderingSender`
(capacity one message when the total is indeterminate, otherwise
`capacity · msgSize` bytes, spare 0), store it, and return it together with
the stream wrapping it. -/
def get_or_create (gs : List (ChannelId × GatewaySender)) (cid : ChannelId)
    (capacity : ℕ) (total : TotalRecords) (msgSize : ℕ) :
    PanicOr (List (ChannelId × GatewaySender) × GatewaySender ×
      Option GatewaySender) :=
  if total.is_specified = false then
    PanicOr.panicked "unspecified total records"
  else
    match alookup gs cid with
    | some s => PanicOr.ok (gs, s, none)
    | none =>
      if msgSize = 0 then
        PanicOr.panicked "Message size should be greater than 0"
      else
        let write_size :=
          if total.is_indeterminate then msgSize else capacity * msgSize
        let sender : GatewaySender :=
          ⟨cid, OrderingSender.new write_size 0, total⟩
        PanicOr.ok (ainsert gs cid sender, sender, some sender)

/-- Run a sequence of `get_or_create` calls for one channel, counting how
many of them handed back a stream; a panic aborts the run. -/
def runGetOrCreate (cid : ChannelId) :
    List (ChannelId × GatewaySender) → List (ℕ × TotalRecords × ℕ) →
    List (ChannelId × GatewaySender) × ℕ
  | gs, [] => (gs, 0)
  | gs, (cap, total, msz) :: rest =>
    match get_or_create gs cid cap total msz with
    | PanicOr.panicked _ => (gs, 0)
    | PanicOr.ok (gs2, _, stream) =>
      let r := runGetOrCreate cid gs2 rest
      (r.1, (if stream.isSome then 1 else 0) + r.2)

/-- The `proof_left_1` share of the S4 proof. -/
def sampleProofLeft1 : List (ZMod 31) := [0, 11, 24, 8, 0, 4, 3]

/-- The `proof_right_1` share: `G1 − proof_left_1` componentwise. -/
def sampleProofRight1 : List (ZMod 31) :=
  List.zipWith (fun a b => a - b)
    ([0, 30, 29, 30, 5, 28, 13] : List (ZMod 31)) sampleProofLeft1

end IpaCore

namespace IpaCore

/-! ## Lemmas about `compute_proof` -/

lemma getD_zipWith_add {p : ℕ} (a b : List (ZMod p)) (i : ℕ)
    (ha : i < a.length) (hb : i < b.length) :
    (List.zipWith (fun x y => x + y) a b).getD i 0 = a.getD i 0 + b.getD i 0 := by
  have hl : i < (List.zipWith (fun x y : ZMod p => x + y) a b).length := by
    simp [List.length_zipWith]; omega
  rw [List.getD_eq_getElem _ _ hl, List.getD_eq_getElem _ _ ha,
    List.getD_eq_getElem _ _ hb, List.getElem_zipWith]

lemma length_lagrangeTableEval (p lam K : ℕ) (ys : List (ZMod p)) :
    (lagrangeTableEval p lam K ys).length = K := by
  simp [lagrangeTableEval]

lemma length_chunkContribution (p lam : ℕ) (hlam : 1 ≤ lam) (c : UVChunk p) :
    (chunkContribution p lam c).length = 2 * lam - 1 := by
  simp [chunkContribution, List.length_zipWith, length_lagrangeTableEval]
  omega

lemma chunkContribution_getD_lo (p lam : ℕ) (c : UVChunk p) (i : ℕ) (hi : i < lam) :
    (chunkContribution p lam c).getD i 0 = c.1.getD i 0 * c.2.getD i 0 := by
  have h1 : i < ((List.range lam).map
      (fun i => c.1.getD i 0 * c.2.getD i 0)).length := by simpa using hi
  have h2 : i < (chunkContribution p lam c).length := by
    unfold chunkContribution
    rw [List.length_append]
    omega
  rw [List.getD_eq_getElem _ _ h2]
  unfold chunkContribution
  rw [List.getElem_append_left h1, List.getElem_map, List.getElem_range]

lemma chunkContribution_getD_hi (p lam : ℕ) (c : UVChunk p) (i : ℕ) (hi : i < lam - 1) :
    (chunkContribution p lam c).getD (lam + i) 0 =
      (lagrangeTableEval p lam (lam - 1) c.1).getD i 0 *
        (lagrangeTableEval p lam (lam - 1) c.2).getD i 0 := by
  have hfst : ((List.range lam).map
      (fun i => c.1.getD i 0 * c.2.getD i 0)).length = lam := by simp
  have hz : i < (List.zipWith (fun x y : ZMod p => x * y)
      (lagrangeTableEval p lam (lam - 1) c.1)
      (lagrangeTableEval p lam (lam - 1) c.2)).length := by
    simp [List.length_zipWith, length_lagrangeTableEval]; omega
  have h2 : lam + i < (chunkContribution p lam c).length := by
    unfold chunkContribution
    rw [List.length_append, hfst]
    omega
  have ha : i < (lagrangeTableEval p lam (lam - 1) c.1).length := by
    rw [length_lagrangeTableEval]; omega
  have hb : i < (lagrangeTableEval p lam (lam - 1) c.2).length := by
    rw [length_lagrangeTableEval]; omega
  rw [List.getD_eq_getElem _ _ h2]
  unfold chunkContribution
  rw [List.getElem_append_right (by rw [hfst]; omega)]
  simp only [hfst]
  have hidx : lam + i - lam = i := by omega
  rw [List.getElem_zipWith]
  rw [List.getD_eq_getElem _ _ ha, List.getD_eq_getElem _ _ hb]
  congr 1 <;> simp [hidx]

lemma foldl_zipAdd_length (p lam : ℕ) (hlam : 1 ≤ lam) :
    ∀ (uv : List (UVChunk p)) (init : List (ZMod p)), init.length = 2 * lam - 1 →
      (uv.foldl (fun proof c =>
          List.zipWith (fun a b => a + b) proof (chunkContribution p lam c))
        init).length = 2 * lam - 1 := by
  intro uv
  induction uv with
  | nil => intro init h; simpa using h
  | cons c rest ih =>
    intro init h
    simp only [List.foldl_cons]
    exact ih _ (by
      rw [List.length_zipWith, h, length_chunkContribution p lam hlam]
      omega)

lemma foldl_zipAdd_getD (p lam : ℕ) (hlam : 1 ≤ lam) (i : ℕ) (hi : i < 2 * lam - 1) :
    ∀ (uv : List (UVChunk p)) (init : List (ZMod p)), init.length = 2 * lam - 1 →
      (uv.foldl (fun proof c =>
          List.zipWith (fun a b => a + b) proof (chunkContribution p lam c))
        init).getD i 0 =
      init.getD i 0 + (uv.map (fun c => (chunkContribution p lam c).getD i 0)).sum := by
  intro uv
  induction uv with
  | nil => intro init _; simp
  | cons c rest ih =>
    intro init h
    simp only [List.foldl_cons, List.map_cons, List.sum_cons]
    rw [ih _ (by
      rw [List.length_zipWith, h, length_chunkContribution p lam hlam]
      omega)]
    rw [getD_zipWith_add _ _ i (h ▸ hi)
      (by rw [length_chunkContribution p lam hlam]; exact hi)]
    ring

/-- The claim C2 property, stated against `compute_proof`. -/
theorem compute_proof_spec (p lam : ℕ) (hlam : 1 ≤ lam) (uv : List (UVChunk p)) :
    (compute_proof p lam uv).length = 2 * lam - 1 ∧
    (∀ i, i < lam →
      (compute_proof p lam uv).getD i 0 =
        (uv.map (fun c => c.1.getD i 0 * c.2.getD i 0)).sum) ∧
    (∀ i, i < lam - 1 →
      (compute_proof p lam uv).getD (lam + i) 0 =
        (uv.map (fun c =>
          (lagrangeTableEval p lam (lam - 1) c.1).getD i 0 *
            (lagrangeTableEval p lam (lam - 1) c.2).getD i 0)).sum) ∧
    compute_proof 31 4 sampleUV1 = [0, 30, 29, 30, 5, 28, 13] := by
  have hinit : (List.replicate (2 * lam - 1) (0 : ZMod p)).length = 2 * lam - 1 := by
    simp
  refine ⟨foldl_zipAdd_length p lam hlam uv _ hinit, ?_, ?_, by decide⟩
  · intro i hi
    have hi2 : i < 2 * lam - 1 := by omega
    rw [compute_proof, foldl_zipAdd_getD p lam hlam i hi2 uv _ hinit]
    have hmap : uv.map (fun c => (chunkContribution p lam c).getD i 0) =
        uv.map (fun c => c.1.getD i 0 * c.2.getD i 0) :=
      List.map_congr_left (fun c _ => chunkContribution_getD_lo p lam c i hi)
    rw [hmap]
    simp
  · intro i hi
    have hi2 : lam + i < 2 * lam - 1 := by omega
    rw [compute_proof, foldl_zipAdd_getD p lam hlam (lam + i) hi2 uv _ hinit]
    have hmap : uv.map (fun c => (chunkContribution p lam c).getD (lam + i) 0) =
        uv.map (fun c =>
          (lagrangeTableEval p lam (lam - 1) c.1).getD i 0 *
            (lagrangeTableEval p lam (lam - 1) c.2).getD i 0) :=
      List.map_congr_left (fun c _ => chunkContribution_getD_hi p lam c i hi)
    rw [hmap]
    simp

/-- Witness for `compute_proof_spec` at `p = 31`, `λ = 4`, on the S4 chunks. -/
theorem compute_proof_spec_witness :
    (compute_proof 31 4 sampleUV1).length = 2 * 4 - 1 ∧
    compute_proof 31 4 sampleUV1 = [0, 30, 29, 30, 5, 28, 13] :=
  ⟨(compute_proof_spec 31 4 (by decide) sampleUV1).1,
    (compute_proof_spec 31 4 (by decide) sampleUV1).2.2.2⟩

/-! ## Lemmas about `gen_challenge_and_recurse` -/

lemma set_pad {α : Type} (d x : α) (us : List α) (k : ℕ) (hk : 1 ≤ k) :
    (us ++ List.replicate k d).set us.length x = us ++ x :: List.replicate (k - 1) d := by
  induction us with
  | nil =>
    cases k with
    | zero => omega
    | succ m => simp [List.replicate_succ]
  | cons a us ih => simpa using ih

lemma length_padChunk (p lam : ℕ) (us : List (ZMod p)) (h : us.length ≤ lam) :
    (padChunk p lam us).length = lam := by
  simp [padChunk]; omega

lemma padChunk_set (p lam : ℕ) (us : List (ZMod p)) (x : ZMod p)
    (h : us.length < lam) :
    (padChunk p lam us).set us.length x = padChunk p lam (us ++ [x]) := by
  rw [padChunk, set_pad (0 : ZMod p) x us _ (by omega), padChunk]
  have hc : lam - us.length - 1 = lam - (us ++ [x]).length := by
    simp only [List.length_append, List.length_singleton]
    omega
  rw [hc]
  simp

lemma padChunk_full (p lam : ℕ) (us : List (ZMod p)) (h : us.length = lam) :
    padChunk p lam us = us := by
  simp [padChunk, h]

lemma foldl_recurseStep_flush (p lam : ℕ) (hlam : 1 ≤ lam) :
    ∀ (evals : List (ZMod p × ZMod p)) (us vs : List (ZMod p))
      (out : List (UVChunk p)), us.length = vs.length → us.length ≤ lam →
      (let st := evals.foldl (recurseStep p lam)
          (us.length, padChunk p lam us, padChunk p lam vs, out)
       if st.1 ≠ 0 then st.2.2.2 ++ [(st.2.1, st.2.2.1)] else st.2.2.2) =
      out ++ repackGo p lam us vs evals := by
  intro evals
  induction evals with
  | nil =>
    intro us vs out hl hle
    simp only [List.foldl_nil, repackGo]
    by_cases h : us.length = 0
    · simp [h]
    · simp [h]
  | cons e rest ih =>
    intro us vs out hl hle
    simp only [List.foldl_cons]
    by_cases h : lam ≤ us.length
    · have hfull : us.length = lam := by omega
      have hstep : recurseStep p lam
          (us.length, padChunk p lam us, padChunk p lam vs, out) e =
          (([e.1] : List (ZMod p)).length, padChunk p lam [e.1], padChunk p lam [e.2],
            out ++ [(padChunk p lam us, padChunk p lam vs)]) := by
        simp only [recurseStep, if_pos h]
        have h1 : (List.replicate lam (0 : ZMod p)).set 0 e.1 =
            padChunk p lam [e.1] := by
          have := set_pad (0 : ZMod p) e.1 [] lam hlam
          simpa [padChunk] using this
        have h2 : (List.replicate lam (0 : ZMod p)).set 0 e.2 =
            padChunk p lam [e.2] := by
          have := set_pad (0 : ZMod p) e.2 [] lam hlam
          simpa [padChunk] using this
        simp [h1, h2]
      rw [hstep, ih [e.1] [e.2] _ rfl (by simpa using hlam)]
      simp only [repackGo, if_pos h]
      simp
    · have hlt : us.length < lam := by omega
      have hstep : recurseStep p lam
          (us.length, padChunk p lam us, padChunk p lam vs, out) e =
          ((us ++ [e.1]).length, padChunk p lam (us ++ [e.1]),
            padChunk p lam (vs ++ [e.2]), out) := by
        simp only [recurseStep, if_neg h]
        rw [padChunk_set p lam us e.1 hlt]
        conv in (padChunk p lam vs).set us.length e.2 => rw [hl]
        rw [padChunk_set p lam vs e.2 (by omega)]
        simp
      rw [hstep, ih (us ++ [e.1]) (vs ++ [e.2]) _ (by simp [hl]) (by simp; omega)]
      simp only [repackGo, if_neg h]

lemma recurse_r_eq_repackGo (p lam : ℕ) (hlam : 1 ≤ lam) (r : ZMod p)
    (uv : List (UVChunk p)) :
    gen_challenge_and_recurse_r p lam r uv =
      repackGo p lam [] []
        (uv.map (fun c => (lagrangeEval p lam c.1 r, lagrangeEval p lam c.2 r))) := by
  have h := foldl_recurseStep_flush p lam hlam
    (uv.map (fun c => (lagrangeEval p lam c.1 r, lagrangeEval p lam c.2 r)))
    [] [] [] rfl (by simp)
  simp only [List.length_nil, padChunk, List.nil_append, Nat.sub_zero,
    List.append_nil] at h
  simpa [gen_challenge_and_recurse_r] using h

lemma repackGo_length (p lam : ℕ) (hlam : 1 ≤ lam) :
    ∀ (evals : List (ZMod p × ZMod p)) (us vs : List (ZMod p)),
      us.length ≤ lam →
      (repackGo p lam us vs evals).length =
        (us.length + evals.length + lam - 1) / lam := by
  intro evals
  induction evals with
  | nil =>
    intro us vs hle
    by_cases h : us.length = 0
    · rw [repackGo, if_pos h, h]
      simp [Nat.div_eq_of_lt (by omega : lam - 1 < lam)]
    · rw [repackGo, if_neg h]
      have hnum : us.length + ([] : List (ZMod p × ZMod p)).length + lam - 1 =
          (us.length - 1) + lam := by
        simp only [List.length_nil]
        omega
      rw [hnum, Nat.add_div_right _ (by omega),
        Nat.div_eq_of_lt (by omega : us.length - 1 < lam)]
      simp
  | cons e rest ih =>
    intro us vs hle
    have hpos : 0 < lam := by omega
    by_cases h : lam ≤ us.length
    · have hfull : us.length = lam := by omega
      rw [repackGo, if_pos h, List.length_cons,
        ih [e.1] [e.2] (by simpa using hlam)]
      have h1 : ([e.1] : List (ZMod p)).length + rest.length + lam - 1 =
          rest.length + lam := by simp; omega
      have h2 : us.length + (e :: rest).length + lam - 1 =
          (rest.length + lam) + lam := by simp [hfull]; omega
      rw [h1, h2]
      simp only [Nat.add_div_right _ hpos]
    · rw [repackGo, if_neg h, ih (us ++ [e.1]) (vs ++ [e.2]) (by simp; omega)]
      congr 1
      simp
      omega

lemma repackGo_chunk_lengths (p lam : ℕ) (hlam : 1 ≤ lam) :
    ∀ (evals : List (ZMod p × ZMod p)) (us vs : List (ZMod p)),
      us.length = vs.length → us.length ≤ lam →
      ∀ c ∈ repackGo p lam us vs evals, c.1.length = lam ∧ c.2.length = lam := by
  intro evals
  induction evals with
  | nil =>
    intro us vs hl hle c hc
    by_cases h : us.length = 0
    · rw [repackGo, if_pos h] at hc
      simp at hc
    · rw [repackGo, if_neg h] at hc
      simp at hc
      subst hc
      exact ⟨length_padChunk p lam us hle, length_padChunk p lam vs (hl ▸ hle)⟩
  | cons e rest ih =>
    intro us vs hl hle c hc
    by_cases h : lam ≤ us.length
    · rw [repackGo, if_pos h] at hc
      rcases List.mem_cons.mp hc with h1 | h2
      · rw [h1]
        exact ⟨length_padChunk p lam us hle, length_padChunk p lam vs (hl ▸ hle)⟩
      · exact ih [e.1] [e.2] rfl (by simpa using hlam) c h2
    · rw [repackGo, if_neg h] at hc
      exact ih (us ++ [e.1]) (vs ++ [e.2]) (by simp [hl]) (by simp; omega) c hc

lemma repackGo_total_le (p lam : ℕ) (hlam : 1 ≤ lam) :
    ∀ (evals : List (ZMod p × ZMod p)) (us vs : List (ZMod p)),
      us.length ≤ lam →
      us.length + evals.length ≤ (repackGo p lam us vs evals).length * lam := by
  intro evals
  induction evals with
  | nil =>
    intro us vs hle
    by_cases h : us.length = 0
    · simp [repackGo, h]
    · rw [repackGo, if_neg h]
      simpa using hle
  | cons e rest ih =>
    intro us vs hle
    by_cases h : lam ≤ us.length
    · rw [repackGo, if_pos h]
      have hrec := ih [e.1] [e.2] (by simpa using hlam)
      simp only [List.length_singleton] at hrec
      simp only [List.length_cons, Nat.add_mul, Nat.one_mul]
      omega
    · rw [repackGo, if_neg h]
      have hrec := ih (us ++ [e.1]) (vs ++ [e.2]) (by simp; omega)
      simp only [List.length_append, List.length_singleton] at hrec
      simp only [List.length_cons]
      omega

lemma repackGo_flatten_fst (p lam : ℕ) (hlam : 1 ≤ lam) :
    ∀ (evals : List (ZMod p × ZMod p)) (us vs : List (ZMod p)),
      us.length ≤ lam →
      ((repackGo p lam us vs evals).map (fun c => c.1)).flatten =
        (us ++ evals.map Prod.fst) ++
          List.replicate
            ((repackGo p lam us vs evals).length * lam -
              (us.length + evals.length)) 0 := by
  intro evals
  induction evals with
  | nil =>
    intro us vs hle
    by_cases h : us.length = 0
    · have hus : us = [] := List.length_eq_zero.mp h
      rw [repackGo, if_pos h, hus]
      simp
    · rw [repackGo, if_neg h]
      simp only [List.map_cons, List.map_nil, List.flatten_cons, List.flatten_nil,
        List.append_nil, List.length_singleton, Nat.one_mul, List.length_nil,
        Nat.add_zero, padChunk]
  | cons e rest ih =>
    intro us vs hle
    by_cases h : lam ≤ us.length
    · have hfull : us.length = lam := by omega
      rw [repackGo, if_pos h]
      have hrec := ih [e.1] [e.2] (by simpa using hlam)
      simp only [List.length_singleton] at hrec
      simp only [List.map_cons, List.flatten_cons, padChunk_full p lam us hfull,
        hrec, List.length_cons]
      have hcount : ((repackGo p lam [e.1] [e.2] rest).length + 1) * lam -
          (us.length + (rest.length + 1)) =
          (repackGo p lam [e.1] [e.2] rest).length * lam - (1 + rest.length) := by
        simp only [Nat.add_mul, Nat.one_mul, hfull]
        omega
      rw [hcount]
      simp
    · rw [repackGo, if_neg h]
      have hrec := ih (us ++ [e.1]) (vs ++ [e.2]) (by simp; omega)
      simp only [List.length_append, List.length_singleton] at hrec
      rw [hrec]
      have hcount : (repackGo p lam (us ++ [e.1]) (vs ++ [e.2]) rest).length * lam -
          (us.length + 1 + rest.length) =
          (repackGo p lam (us ++ [e.1]) (vs ++ [e.2]) rest).length * lam -
          (us.length + (e :: rest).length) := by
        simp only [List.length_cons]
        omega
      rw [hcount]
      simp

lemma repackGo_flatten_snd (p lam : ℕ) (hlam : 1 ≤ lam) :
    ∀ (evals : List (ZMod p × ZMod p)) (us vs : List (ZMod p)),
      us.length = vs.length → us.length ≤ lam →
      ((repackGo p lam us vs evals).map (fun c => c.2)).flatten =
        (vs ++ evals.map Prod.snd) ++
          List.replicate
            ((repackGo p lam us vs evals).length * lam -
              (vs.length + evals.length)) 0 := by
  intro evals
  induction evals with
  | nil =>
    intro us vs hl hle
    by_cases h : us.length = 0
    · have hus : us = [] := List.length_eq_zero.mp h
      have hvs : vs = [] := List.length_eq_zero.mp (hl ▸ h)
      rw [repackGo, if_pos h, hvs]
      simp
    · rw [repackGo, if_neg h]
      simp only [List.map_cons, List.map_nil, List.flatten_cons, List.flatten_nil,
        List.append_nil, List.length_singleton, Nat.one_mul, List.length_nil,
        Nat.add_zero, padChunk]
  | cons e rest ih =>
    intro us vs hl hle
    by_cases h : lam ≤ us.length
    · have hfull : vs.length = lam := by omega
      rw [repackGo, if_pos h]
      have hrec := ih [e.1] [e.2] rfl (by simpa using hlam)
      simp only [List.length_singleton] at hrec
      simp only [List.map_cons, List.flatten_cons, padChunk_full p lam vs hfull,
        hrec, List.length_cons]
      have hcount : ((repackGo p lam [e.1] [e.2] rest).length + 1) * lam -
          (vs.length + (rest.length + 1)) =
          (repackGo p lam [e.1] [e.2] rest).length * lam - (1 + rest.length) := by
        simp only [Nat.add_mul, Nat.one_mul, hfull]
        omega
      rw [hcount]
      simp
    · rw [repackGo, if_neg h]
      have hrec := ih (us ++ [e.1]) (vs ++ [e.2]) (by simp [hl]) (by simp; omega)
      simp only [List.length_append, List.length_singleton] at hrec
      rw [hrec]
      have hcount : (repackGo p lam (us ++ [e.1]) (vs ++ [e.2]) rest).length * lam -
          (vs.length + 1 + rest.length) =
          (repackGo p lam (us ++ [e.1]) (vs ++ [e.2]) rest).length * lam -
          (vs.length + (e :: rest).length) := by
        simp only [List.length_cons]
        omega
      rw [hcount]
      simp

/-- The claim C3 property, stated against `gen_challenge_and_recurse`. -/
theorem gen_challenge_and_recurse_spec (p lam : ℕ) (hlam : 1 ≤ lam) {D : Type}
    (ch : List (ZMod p) → D) (hf : D → D → ℕ → ZMod p)
    (pl pr : List (ZMod p)) (uv : List (UVChunk p)) :
    gen_challenge_and_recurse p lam ch hf pl pr uv =
      gen_challenge_and_recurse_r p lam (hf (ch pl) (ch pr) lam) uv ∧
    (gen_challenge_and_recurse p lam ch hf pl pr uv).length =
      (uv.length + lam - 1) / lam ∧
    (∀ c ∈ gen_challenge_and_recurse p lam ch hf pl pr uv,
      c.1.length = lam ∧ c.2.length = lam) ∧
    ((gen_challenge_and_recurse p lam ch hf pl pr uv).map
        (fun c => c.1)).flatten =
      uv.map (fun c => lagrangeEval p lam c.1 (hf (ch pl) (ch pr) lam)) ++
        List.replicate
          ((gen_challenge_and_recurse p lam ch hf pl pr uv).length * lam -
            uv.length) 0 ∧
    ((gen_challenge_and_recurse p lam ch hf pl pr uv).map
        (fun c => c.2)).flatten =
      uv.map (fun c => lagrangeEval p lam c.2 (hf (ch pl) (ch pr) lam)) ++
        List.replicate
          ((gen_challenge_and_recurse p lam ch hf pl pr uv).length * lam -
            uv.length) 0 ∧
    (∀ {E : Type} (ch2 : List (ZMod 31) → E) (hf2 : E → E → ℕ → ZMod 31),
      hf2 (ch2 sampleProofLeft1) (ch2 sampleProofRight1) 4 = 22 →
      gen_challenge_and_recurse 31 4 ch2 hf2 sampleProofLeft1 sampleProofRight1
          sampleUV1 =
        [([0, 0, 26, 0], [10, 21, 30, 28]), ([7, 18, 24, 13], [15, 21, 3, 3])]) := by
  have hdef : gen_challenge_and_recurse p lam ch hf pl pr uv =
      gen_challenge_and_recurse_r p lam (hf (ch pl) (ch pr) lam) uv := rfl
  set r := hf (ch pl) (ch pr) lam with hr
  have hrepack := recurse_r_eq_repackGo p lam hlam r uv
  set evals := uv.map
    (fun c => (lagrangeEval p lam c.1 r, lagrangeEval p lam c.2 r)) with hevals
  have hlen : evals.length = uv.length := by simp [hevals]
  refine ⟨hdef, ?_, ?_, ?_, ?_, ?_⟩
  · rw [hdef, hrepack, repackGo_length p lam hlam evals [] [] (by simp)]
    simp [hlen]
  · intro c hc
    rw [hdef, hrepack] at hc
    exact repackGo_chunk_lengths p lam hlam evals [] [] rfl (by simp) c hc
  · rw [hdef, hrepack,
      repackGo_flatten_fst p lam hlam evals [] [] (by simp)]
    simp only [List.nil_append, List.length_nil, Nat.zero_add, hlen]
    congr 1
    simp [hevals, List.map_map]
  · rw [hdef, hrepack,
      repackGo_flatten_snd p lam hlam evals [] [] rfl (by simp)]
    simp only [List.nil_append, List.length_nil, Nat.zero_add, hlen]
    congr 1
    simp [hevals, List.map_map]
  · intro E ch2 hf2 h
    show gen_challenge_and_recurse_r 31 4
        (hf2 (ch2 sampleProofLeft1) (ch2 sampleProofRight1) 4) sampleUV1 = _
    rw [h]
    decide

/-- Witness for `gen_challenge_and_recurse_spec` at `p = 31`, `λ = 4`, with a
hash stand-in returning the S4 challenge `r = 22`. -/
theorem gen_challenge_and_recurse_spec_witness :
    (1 : ℕ) ≤ 4 ∧
    gen_challenge_and_recurse 31 4 (fun _ => ()) (fun _ _ _ => (22 : ZMod 31))
        sampleProofLeft1 sampleProofRight1 sampleUV1 =
      [([0, 0, 26, 0], [10, 21, 30, 28]), ([7, 18, 24, 13], [15, 21, 3, 3])] :=
  ⟨by decide,
    (gen_challenge_and_recurse_spec 31 4 (by decide) (fun _ => ())
      (fun _ _ _ => (22 : ZMod 31)) sampleProofLeft1 sampleProofRight1
      sampleUV1).2.2.2.2.2 (fun _ => ()) (fun _ _ _ => (22 : ZMod 31)) rfl⟩

/-! ## Lemmas about the `PartialEq` impl -/

lemma pgEqRow_matches (p : ℕ) (eqU : ZMod p → ℕ → Bool) (cmp : List ℕ)
    (base : ℕ) :
    ∀ (xs : List (ZMod p)) (j : ℕ),
      (∀ t, t < xs.length → base + j + t < cmp.length ∧
        eqU (xs.getD t 0) (cmp.getD (base + j + t) 0) = true) →
      pgEqRow p eqU cmp base xs j = some true := by
  intro xs
  induction xs with
  | nil => intro j _; rfl
  | cons x xs ih =>
    intro j h
    obtain ⟨hb, heq⟩ := h 0 (by simp)
    simp only [Nat.add_zero] at hb heq
    rw [pgEqRow, List.getElem?_eq_getElem hb]
    simp only []
    rw [show cmp[base + j] = cmp.getD (base + j) 0 from
      (List.getD_eq_getElem cmp 0 hb).symm]
    simp only [List.getD_cons_zero] at heq
    rw [heq]
    simp only [if_true]
    apply ih (j + 1)
    intro t ht
    have := h (t + 1) (by simpa using Nat.succ_lt_succ ht)
    simp only [List.getD_cons_succ] at this
    have hidx : base + j + (t + 1) = base + (j + 1) + t := by omega
    rw [hidx] at this
    exact this

lemma pgEqRows_matches (p : ℕ) (eqU : ZMod p → ℕ → Bool) (lam : ℕ)
    (cmpA cmpB : List ℕ) :
    ∀ (uv : List (UVChunk p)) (i : ℕ),
      (∀ k, k < uv.length → ∀ t, t < (uv.getD k ([], [])).1.length →
        (i + k) * lam + t < cmpA.length ∧
        eqU ((uv.getD k ([], [])).1.getD t 0)
          (cmpA.getD ((i + k) * lam + t) 0) = true) →
      (∀ k, k < uv.length → ∀ t, t < (uv.getD k ([], [])).2.length →
        (i + k) * lam + t < cmpB.length ∧
        eqU ((uv.getD k ([], [])).2.getD t 0)
          (cmpB.getD ((i + k) * lam + t) 0) = true) →
      pgEqRows p eqU lam cmpA cmpB uv i = some true := by
  intro uv
  induction uv with
  | nil => intro i _ _; rfl
  | cons c rest ih =>
    intro i hA hB
    have hrowA : pgEqRow p eqU cmpA (i * lam) c.1 0 = some true := by
      apply pgEqRow_matches
      intro t ht
      have := hA 0 (by simp) t (by simpa using ht)
      simpa using this
    have hrowB : pgEqRow p eqU cmpB (i * lam) c.2 0 = some true := by
      apply pgEqRow_matches
      intro t ht
      have := hB 0 (by simp) t (by simpa using ht)
      simpa using this
    rw [pgEqRows, hrowA]
    simp only []
    rw [hrowB]
    simp only []
    apply ih (i + 1)
    · intro k hk t ht
      have := hA (k + 1) (by simpa using Nat.succ_lt_succ hk) t
        (by simpa using ht)
      have hidx : i + (k + 1) = i + 1 + k := by omega
      rw [hidx] at this
      simpa using this
    · intro k hk t ht
      have := hB (k + 1) (by simpa using Nat.succ_lt_succ hk) t
        (by simpa using ht)
      have hidx : i + (k + 1) = i + 1 + k := by omega
      rw [hidx] at this
      simpa using this

/-- The claim C10 property, stated against `pgEq`. -/
theorem pgEq_spec (p : ℕ) (eqU : ZMod p → ℕ → Bool) (lam : ℕ)
    (uv : List (UVChunk p)) (cmpA cmpB : List ℕ)
    (hA : ∀ k, k < uv.length → ∀ t, t < (uv.getD k ([], [])).1.length →
      k * lam + t < cmpA.length ∧
      eqU ((uv.getD k ([], [])).1.getD t 0) (cmpA.getD (k * lam + t) 0) = true)
    (hB : ∀ k, k < uv.length → ∀ t, t < (uv.getD k ([], [])).2.length →
      k * lam + t < cmpB.length ∧
      eqU ((uv.getD k ([], [])).2.getD t 0) (cmpB.getD (k * lam + t) 0) = true) :
    pgEq p eqU lam uv cmpA cmpB = some true ∧
    (∀ (cA cB : List ℕ), pgEq p eqU lam [] cA cB = some true) := by
  constructor
  · apply pgEqRows_matches
    · intro k hk t ht
      have := hA k hk t ht
      simpa using this
    · intro k hk t ht
      have := hB k hk t ht
      simpa using this
  · intro cA cB
    rfl

/-- Witness for `pgEq_spec`: a one-chunk generator over `F_31` with `λ = 2`
compared against strictly longer slices still yields `true`. -/
theorem pgEq_spec_witness :
    pgEq 31 (fun x c => x.val == c) 2 [([1, 2], [3, 4])] [1, 2, 9, 9]
        [3, 4, 7] = some true ∧
    pgEq 31 (fun x c => x.val == c) 2 [] [5] [] = some true :=
  ⟨(pgEq_spec 31 (fun x c => x.val == c) 2 [([1, 2], [3, 4])] [1, 2, 9, 9]
      [3, 4, 7] (by decide) (by decide)).1,
    (pgEq_spec 31 (fun x c => x.val == c) 2 [([1, 2], [3, 4])] [1, 2, 9, 9]
      [3, 4, 7] (by decide) (by decide)).2 [5] []⟩

/-! ## Lemmas about the ReceiveBuffer -/

lemma alookup_ainsert_self {κ α : Type} [DecidableEq κ]
    (m : List (κ × α)) (k : κ) (v : α) : alookup (ainsert m k v) k = some v := by
  simp [alookup, ainsert, List.find?_cons_of_pos]

lemma alookup_aerase_self {κ α : Type} [DecidableEq κ]
    (m : List (κ × α)) (k : κ) : alookup (aerase m k) k = none := by
  have hfind : (aerase m k).find? (fun e => e.1 = k) = none := by
    rw [List.find?_eq_none]
    intro e he
    have := (List.mem_filter.mp he).2
    simpa using this
  simp [alookup, hfind]

/-- The claim C6 property: duplicate receive requests and duplicate payload
deliveries for the same `(channel, record)` panic, with the messages from
buffers.rs:94 and buffers.rs:124. -/
theorem receive_buffer_duplicate_spec (rb : ReceiveBuffer) (cid : ChannelId)
    (rid s1 s2 : ℕ) (p1 p2 : List ℕ)
    (h : alookup ((alookup rb cid).getD []) rid = none) :
    (∃ rb1, receive_request rb cid rid s1 = PanicOr.ok (rb1, []) ∧
      receive_request rb1 cid rid s2 = PanicOr.panicked
        ("More than one request to receive a message for RecordId(" ++
          toString rid ++ ")")) ∧
    (∃ rb2, receive_messages cid rb [⟨rid, p1⟩] = PanicOr.ok (rb2, []) ∧
      receive_messages cid rb2 [⟨rid, p2⟩] = PanicOr.panicked
        ("Duplicate message for the same record RecordId(" ++
          toString rid ++ ")")) := by
  constructor
  · refine ⟨ainsert rb cid
      (ainsert ((alookup rb cid).getD []) rid (ReceiveBufItem.requested s1)),
      ?_, ?_⟩
    · simp only [receive_request, h]
    · simp only [receive_request, alookup_ainsert_self, Option.getD_some]
  · refine ⟨ainsert rb cid
      (ainsert ((alookup rb cid).getD []) rid (ReceiveBufItem.received p1)),
      ?_, ?_⟩
    · simp only [receive_messages, receive_one, h, List.nil_append]
    · simp only [receive_messages, receive_one, alookup_ainsert_self,
        Option.getD_some]

/-- Witness for `receive_buffer_duplicate_spec`: the S3 scenario, record 5
on an empty buffer. -/
theorem receive_buffer_duplicate_spec_witness :
    (∃ rb1, receive_request [] ⟨Role.h1, "c"⟩ 5 1 = PanicOr.ok (rb1, []) ∧
      receive_request rb1 ⟨Role.h1, "c"⟩ 5 2 = PanicOr.panicked
        "More than one request to receive a message for RecordId(5)") ∧
    (∃ rb2, receive_messages ⟨Role.h1, "c"⟩ [] [⟨5, [7]⟩] = PanicOr.ok (rb2, []) ∧
      receive_messages ⟨Role.h1, "c"⟩ rb2 [⟨5, [9]⟩] = PanicOr.panicked
        "Duplicate message for the same record RecordId(5)") :=
  receive_buffer_duplicate_spec [] ⟨Role.h1, "c"⟩ 5 1 2 [7] [9] rfl

/-- The claim C7 property: in both interleavings the receive is fulfilled
exactly once with the matching payload, and the buffer entry is removed. -/
theorem receive_buffer_fulfil_spec (rb : ReceiveBuffer) (cid : ChannelId)
    (rid s : ℕ) (p : List ℕ)
    (h : alookup ((alookup rb cid).getD []) rid = none) :
    (∃ rb1 rb2, receive_request rb cid rid s = PanicOr.ok (rb1, []) ∧
      receive_messages cid rb1 [⟨rid, p⟩] = PanicOr.ok (rb2, [⟨s, p⟩]) ∧
      alookup ((alookup rb2 cid).getD []) rid = none) ∧
    (∃ rb3 rb4, receive_messages cid rb [⟨rid, p⟩] = PanicOr.ok (rb3, []) ∧
      receive_request rb3 cid rid s = PanicOr.ok (rb4, [⟨s, p⟩]) ∧
      alookup ((alookup rb4 cid).getD []) rid = none) := by
  constructor
  · refine ⟨ainsert rb cid
      (ainsert ((alookup rb cid).getD []) rid (ReceiveBufItem.requested s)),
      ainsert (ainsert rb cid
        (ainsert ((alookup rb cid).getD []) rid (ReceiveBufItem.requested s)))
        cid (aerase (ainsert ((alookup rb cid).getD []) rid
          (ReceiveBufItem.requested s)) rid), ?_, ?_, ?_⟩
    · simp only [receive_request, h]
    · simp only [receive_messages, receive_one, alookup_ainsert_self,
        Option.getD_some, List.append_nil]
    · simp only [alookup_ainsert_self, Option.getD_some, alookup_aerase_self]
  · refine ⟨ainsert rb cid
      (ainsert ((alookup rb cid).getD []) rid (ReceiveBufItem.received p)),
      ainsert (ainsert rb cid
        (ainsert ((alookup rb cid).getD []) rid (ReceiveBufItem.received p)))
        cid (aerase (ainsert ((alookup rb cid).getD []) rid
          (ReceiveBufItem.received p)) rid), ?_, ?_, ?_⟩
    · simp only [receive_messages, receive_one, h, List.nil_append]
    · simp only [receive_request, alookup_ainsert_self, Option.getD_some]
    · simp only [alookup_ainsert_self, Option.getD_some, alookup_aerase_self]

/-- Witness for `receive_buffer_fulfil_spec` on an empty buffer. -/
theorem receive_buffer_fulfil_spec_witness :
    (∃ rb1 rb2, receive_request [] ⟨Role.h2, "g"⟩ 3 8 = PanicOr.ok (rb1, []) ∧
      receive_messages ⟨Role.h2, "g"⟩ rb1 [⟨3, [1, 2]⟩] =
        PanicOr.ok (rb2, [⟨8, [1, 2]⟩]) ∧
      alookup ((alookup rb2 ⟨Role.h2, "g"⟩).getD []) 3 = none) ∧
    (∃ rb3 rb4, receive_messages ⟨Role.h2, "g"⟩ [] [⟨3, [1, 2]⟩] =
        PanicOr.ok (rb3, []) ∧
      receive_request rb3 ⟨Role.h2, "g"⟩ 3 8 = PanicOr.ok (rb4, [⟨8, [1, 2]⟩]) ∧
      alookup ((alookup rb4 ⟨Role.h2, "g"⟩).getD []) 3 = none) :=
  receive_buffer_fulfil_spec [] ⟨Role.h2, "g"⟩ 3 8 [1, 2] rfl

/-! ## Lemmas about the OrderingSender model -/

lemma alookup_append {κ α : Type} [DecidableEq κ] (a b : List (κ × α)) (k : κ) :
    alookup (a ++ b) k = (alookup a k).or (alookup b k) := by
  simp only [alookup, List.find?_append]
  cases a.find? (fun e => e.1 = k) <;> simp

lemma alookup_payloadMap (payload : ℕ → List ℕ) (l : List ℕ) (i : ℕ) :
    alookup (l.map (fun j => (j, payload j))) i =
      if i ∈ l then some (payload i) else none := by
  induction l with
  | nil => simp [alookup]
  | cons a l ih =>
    by_cases ha : a = i
    · subst ha
      simp [alookup, List.find?_cons_of_pos]
    · have : alookup ((a :: l).map (fun j => (j, payload j))) i =
          alookup (l.map (fun j => (j, payload j))) i := by
        simp only [List.map_cons, alookup]
        rw [List.find?_cons_of_neg]
        simpa using ha
      have hia : ¬ i = a := fun h2 => ha h2.symm
      rw [this, ih]
      simp [List.mem_cons, hia]

lemma range'_split (s m k : ℕ) :
    List.range' s (m + k) = List.range' s m ++ List.range' (s + m) k := by
  have h := List.range'_append s m k 1
  simp only [Nat.one_mul] at h
  rw [Nat.add_comm k m] at h
  exact h.symm

lemma collectFrom_spec (slots : List (ℕ × List ℕ)) (payload : ℕ → List ℕ)
    (hc : ∀ i b, alookup slots i = some b → b = payload i) :
    ∀ (fuel next : ℕ), ∃ m,
      collectFrom slots next fuel =
        (((List.range' next m).map payload).flatten, next + m) ∧
      (∀ t, t < m → alookup slots (next + t) ≠ none) ∧
      (alookup slots (next + m) = none ∨ fuel ≤ m) := by
  intro fuel
  induction fuel with
  | zero =>
    intro next
    exact ⟨0, by simp [collectFrom], by simp, Or.inr (by omega)⟩
  | succ fuel ih =>
    intro next
    cases hl : alookup slots next with
    | none =>
      refine ⟨0, ?_, by simp, Or.inl (by simpa using hl)⟩
      simp [collectFrom, hl]
    | some b =>
      have hb : b = payload next := hc next b hl
      obtain ⟨m, hm, hcommit, hmax⟩ := ih (next + 1)
      refine ⟨m + 1, ?_, ?_, ?_⟩
      · have h1 : List.range' next (m + 1) = next :: List.range' (next + 1) m := rfl
        have h2 : next + (m + 1) = next + 1 + m := by omega
        simp only [collectFrom, hl, hm, hb, h1, h2, List.map_cons, List.flatten_cons]
      · intro t ht
        cases t with
        | zero => simpa using (hl ▸ Option.some_ne_none b : _)
        | succ t =>
          have := hcommit t (by omega)
          rw [show next + (t + 1) = next + 1 + t from by omega]
          exact this
      · rcases hmax with h | h
        · exact Or.inl (by rw [show next + (m + 1) = next + 1 + m from by omega]; exact h)
        · exact Or.inr (by omega)

lemma alookup_singleton {κ α : Type} [DecidableEq κ] (k j : κ) (v : α) :
    alookup [(k, v)] j = if k = j then some v else none := by
  by_cases h : k = j <;> simp [alookup, List.find?, h]

lemma alookup_append_left_ne_none {κ α : Type} [DecidableEq κ]
    (a b : List (κ × α)) (k : κ) (h : alookup a k ≠ none) :
    alookup (a ++ b) k ≠ none := by
  rw [alookup_append]
  cases ha : alookup a k with
  | none => exact absurd ha h
  | some v => simp

lemma slotsCorrect_append (payload : ℕ → List ℕ) (os : OrderingSender) (i : ℕ)
    (h : SlotsCorrect payload os) :
    SlotsCorrect payload { os with slots := os.slots ++ [(i, payload i)] } := by
  intro j b hj
  rw [alookup_append] at hj
  cases ha : alookup os.slots j with
  | some v =>
    rw [ha] at hj
    have hv : v = b := Option.some.inj hj
    subst hv
    exact h j v ha
  | none =>
    rw [ha] at hj
    have hx : alookup [(i, payload i)] j = some b := hj
    rw [alookup_singleton] at hx
    by_cases hij : i = j
    · subst hij
      simp at hx
      exact hx.symm
    · simp [hij] at hx

lemma take_next_ready (os : OrderingSender) (B : List ℕ) (n2 : ℕ)
    (hcol : collectFrom os.slots os.next os.slots.length = (B, n2)) (hB : B ≠ []) :
    os.take_next = (TakeNext.ready B, { os with next := n2 }) := by
  simp [OrderingSender.take_next, hcol, hB]

lemma take_next_pending (os : OrderingSender) (n2 : ℕ)
    (hcl : os.closed_at = none)
    (hcol : collectFrom os.slots os.next os.slots.length = ([], n2)) :
    os.take_next = (TakeNext.pending, os) := by
  simp [OrderingSender.take_next, hcol, hcl]

lemma mem_sendIndices_send (ops : List SendOp) (i : ℕ)
    (h : i ∈ sendIndices ops) : SendOp.send i ∈ ops := by
  rcases List.mem_filterMap.mp h with ⟨op, hop, heq⟩
  cases op with
  | send j =>
    simp at heq
    subst heq
    exact hop
  | poll => simp at heq

lemma runTrace_append (payload : ℕ → List ℕ) :
    ∀ (a b : List SendOp) (os : OrderingSender),
      runTrace payload os (a ++ b) =
        ((runTrace payload (runTrace payload os a).1 b).1,
         (runTrace payload os a).2 ++
           (runTrace payload (runTrace payload os a).1 b).2) := by
  intro a
  induction a with
  | nil => intro b os; simp [runTrace]
  | cons op rest ih =>
    intro b os
    cases op with
    | send i =>
      simp only [List.cons_append, runTrace]
      rw [show rest.append b = rest ++ b from rfl, ih b]
    | poll =>
      simp only [List.cons_append, runTrace]
      rw [show rest.append b = rest ++ b from rfl, ih b]
      simp [List.append_assoc]

lemma runTrace_spec (payload : ℕ → List ℕ) :
    ∀ (ops : List SendOp) (os : OrderingSender),
      os.closed_at = none → SlotsCorrect payload os →
      (runTrace payload os ops).1.closed_at = none ∧
      SlotsCorrect payload (runTrace payload os ops).1 ∧
      os.next ≤ (runTrace payload os ops).1.next ∧
      (runTrace payload os ops).2.flatten =
        ((List.range' os.next
          ((runTrace payload os ops).1.next - os.next)).map payload).flatten ∧
      (∀ j, os.next ≤ j → j < (runTrace payload os ops).1.next →
        alookup (runTrace payload os ops).1.slots j ≠ none) ∧
      (runTrace payload os ops).1.slots =
        os.slots ++ (sendIndices ops).map (fun i => (i, payload i)) := by
  intro ops
  induction ops with
  | nil =>
    intro os hcl hcor
    refine ⟨hcl, hcor, Nat.le_refl _, by simp [runTrace], ?_, by simp [runTrace, sendIndices]⟩
    intro j h1 h2
    simp [runTrace] at h1 h2
    omega
  | cons op rest ih =>
    intro os hcl hcor
    cases op with
    | send i =>
      have hsend : os.send i (payload i) =
          some { os with slots := os.slots ++ [(i, payload i)] } := by
        simp [OrderingSender.send, hcl]
      have hrun : runTrace payload os (SendOp.send i :: rest) =
          runTrace payload { os with slots := os.slots ++ [(i, payload i)] } rest := by
        simp [runTrace, hsend]
      obtain ⟨c1, c2, c3, c4, c5, c6⟩ :=
        ih { os with slots := os.slots ++ [(i, payload i)] } hcl
          (slotsCorrect_append payload os i hcor)
      rw [hrun]
      refine ⟨c1, c2, c3, c4, c5, ?_⟩
      rw [c6]
      simp [sendIndices, List.filterMap_cons]
    | poll =>
      obtain ⟨m, hcol, hcommit, hmax⟩ :=
        collectFrom_spec os.slots payload hcor os.slots.length os.next
      by_cases hB : ((List.range' os.next m).map payload).flatten = []
      · have htn : os.take_next = (TakeNext.pending, os) :=
          take_next_pending os (os.next + m) hcl (by rw [hcol, hB])
        have hrun : runTrace payload os (SendOp.poll :: rest) =
            ((runTrace payload os rest).1, (runTrace payload os rest).2) := by
          simp [runTrace, htn]
        obtain ⟨c1, c2, c3, c4, c5, c6⟩ := ih os hcl hcor
        rw [hrun]
        exact ⟨c1, c2, c3, c4, c5, by rw [c6]; simp [sendIndices, List.filterMap_cons]⟩
      · have htn : os.take_next =
            (TakeNext.ready (((List.range' os.next m).map payload).flatten),
             { os with next := os.next + m }) :=
          take_next_ready os _ _ hcol hB
        have hrun : runTrace payload os (SendOp.poll :: rest) =
            ((runTrace payload { os with next := os.next + m } rest).1,
             ((List.range' os.next m).map payload).flatten ::
               (runTrace payload { os with next := os.next + m } rest).2) := by
          simp [runTrace, htn]
        obtain ⟨c1, c2, c3, c4, c5, c6⟩ :=
          ih { os with next := os.next + m } hcl hcor
        rw [hrun]
        refine ⟨c1, c2, by simpa using Nat.le_trans (Nat.le_add_right _ m) c3, ?_, ?_, ?_⟩
        · simp only [List.flatten_cons]
          rw [c4]
          have hsplit : List.range' os.next
              ((runTrace payload { os with next := os.next + m } rest).1.next - os.next) =
              List.range' os.next m ++
                List.range' (os.next + m)
                  ((runTrace payload { os with next := os.next + m } rest).1.next -
                    (os.next + m)) := by
            have h3 : os.next + m ≤
                (runTrace payload { os with next := os.next + m } rest).1.next := by
              simpa using c3
            rw [← range'_split]
            congr 1
            omega
          rw [hsplit]
          simp only [List.map_append, List.flatten_append]
        · intro j h1 h2
          by_cases hj : j < os.next + m
          · have hcm : alookup os.slots j ≠ none := by
              have := hcommit (j - os.next) (by omega)
              rwa [show os.next + (j - os.next) = j from by omega] at this
            rw [c6]
            exact alookup_append_left_ne_none _ _ j hcm
          · exact c5 j (by simpa using Nat.le_of_not_lt hj) h2
        · rw [c6]
          simp [sendIndices, List.filterMap_cons]

/-- The claim C1 property, stated against the modelled `OrderingSender` and
the trace semantics `runTrace`: for every interleaved trace of writes and
reader polls the bytes observed so far are exactly the concatenation, in
record order, of a contiguous committed run of records starting at 0 (the
ordering rule), and a trace whose writes are a permutation of `[0, n)`
followed by a final poll delivers exactly the ordered concatenation of all
`n` payloads. -/
theorem ordering_sender_delivery_spec (payload : ℕ → List ℕ) (ws sp n : ℕ)
    (ops : List SendOp) (hperm : (sendIndices ops).Perm (List.range n)) :
    (∀ ops2 : List SendOp,
      (runTrace payload (OrderingSender.new ws sp) ops2).2.flatten =
        ((List.range
            (runTrace payload (OrderingSender.new ws sp) ops2).1.next).map
          payload).flatten ∧
      ∀ j, j < (runTrace payload (OrderingSender.new ws sp) ops2).1.next →
        SendOp.send j ∈ ops2) ∧
    (runTrace payload (OrderingSender.new ws sp) (ops ++ [SendOp.poll])).2.flatten =
      ((List.range n).map payload).flatten := by
  have hc0 : SlotsCorrect payload (OrderingSender.new ws sp) := by
    intro i b h
    simp [alookup, OrderingSender.new] at h
  constructor
  · intro ops2
    obtain ⟨c1, c2, c3, c4, c5, c6⟩ :=
      runTrace_spec payload ops2 (OrderingSender.new ws sp) rfl hc0
    constructor
    · rw [c4]
      simp [List.range_eq_range', OrderingSender.new]
    · intro j hj
      have hne := c5 j (Nat.zero_le j) hj
      rw [c6] at hne
      simp only [OrderingSender.new, List.nil_append] at hne
      rw [alookup_payloadMap] at hne
      by_cases hmem : j ∈ sendIndices ops2
      · exact mem_sendIndices_send ops2 j hmem
      · simp [hmem] at hne
  · rw [runTrace_append payload ops [SendOp.poll]]
    obtain ⟨c1, c2, c3, c4, c5, c6⟩ :=
      runTrace_spec payload ops (OrderingSender.new ws sp) rfl hc0
    have hslots : (runTrace payload (OrderingSender.new ws sp) ops).1.slots =
        (sendIndices ops).map (fun i => (i, payload i)) := by
      rw [c6]
      simp [OrderingSender.new]
    have hmem : ∀ i, alookup
        (runTrace payload (OrderingSender.new ws sp) ops).1.slots i =
        if i < n then some (payload i) else none := by
      intro i
      rw [hslots, alookup_payloadMap]
      by_cases hi : i < n
      · simp [hperm.mem_iff, List.mem_range, hi]
      · simp [hperm.mem_iff, List.mem_range, hi]
    have hlen : (runTrace payload (OrderingSender.new ws sp) ops).1.slots.length = n := by
      rw [hslots]
      simp [hperm.length_eq]
    have hnextle : (runTrace payload (OrderingSender.new ws sp) ops).1.next ≤ n := by
      by_contra hgt
      have hlt : n < (runTrace payload (OrderingSender.new ws sp) ops).1.next := by
        omega
      have := c5 n (Nat.zero_le n) hlt
      rw [hmem n] at this
      simp at this
    obtain ⟨m, hcol, hcommit, hmax⟩ :=
      collectFrom_spec (runTrace payload (OrderingSender.new ws sp) ops).1.slots
        payload c2
        (runTrace payload (OrderingSender.new ws sp) ops).1.slots.length
        (runTrace payload (OrderingSender.new ws sp) ops).1.next
    have hkey : (runTrace payload (OrderingSender.new ws sp) ops).1.next + m = n := by
      have hle1 : (runTrace payload (OrderingSender.new ws sp) ops).1.next + m ≤ n := by
        by_contra hgt
        have ht := hcommit (n - (runTrace payload (OrderingSender.new ws sp) ops).1.next)
          (by omega)
        rw [show (runTrace payload (OrderingSender.new ws sp) ops).1.next +
            (n - (runTrace payload (OrderingSender.new ws sp) ops).1.next) = n
          from by omega, hmem n] at ht
        simp at ht
      have hge1 : n ≤ (runTrace payload (OrderingSender.new ws sp) ops).1.next + m := by
        by_contra hlt2
        rcases hmax with h0 | hf
        · rw [hmem] at h0
          simp only [ite_eq_right_iff] at h0
          have h2 := h0 (by omega)
          exact Option.some_ne_none _ h2
        · rw [hlen] at hf
          omega
      omega
    have hsplitn : List.range n =
        List.range (runTrace payload (OrderingSender.new ws sp) ops).1.next ++
          List.range' (runTrace payload (OrderingSender.new ws sp) ops).1.next m := by
      rw [List.range_eq_range', List.range_eq_range',
        show n = (runTrace payload (OrderingSender.new ws sp) ops).1.next + m
          from hkey.symm, range'_split]
      simp
    by_cases hB : ((List.range'
        (runTrace payload (OrderingSender.new ws sp) ops).1.next m).map
          payload).flatten = []
    · have htn : (runTrace payload (OrderingSender.new ws sp) ops).1.take_next =
          (TakeNext.pending, (runTrace payload (OrderingSender.new ws sp) ops).1) :=
        take_next_pending _ _ c1 (by rw [hcol, hB])
      have hpoll : runTrace payload
          (runTrace payload (OrderingSender.new ws sp) ops).1 [SendOp.poll] =
          ((runTrace payload (OrderingSender.new ws sp) ops).1, []) := by
        simp [runTrace, htn]
      rw [hpoll]
      simp only [List.append_nil]
      rw [c4, hsplitn]
      simp only [List.map_append, List.flatten_append]
      rw [hB]
      rw [show (OrderingSender.new ws sp).next = 0 from rfl]
      simp [List.range_eq_range']
    · have htn : (runTrace payload (OrderingSender.new ws sp) ops).1.take_next =
          (TakeNext.ready (((List.range'
              (runTrace payload (OrderingSender.new ws sp) ops).1.next m).map
            payload).flatten),
           { (runTrace payload (OrderingSender.new ws sp) ops).1 with
              next := (runTrace payload (OrderingSender.new ws sp) ops).1.next + m }) :=
        take_next_ready _ _ _ hcol hB
      have hpoll : runTrace payload
          (runTrace payload (OrderingSender.new ws sp) ops).1 [SendOp.poll] =
          ({ (runTrace payload (OrderingSender.new ws sp) ops).1 with
              next := (runTrace payload (OrderingSender.new ws sp) ops).1.next + m },
           [((List.range'
              (runTrace payload (OrderingSender.new ws sp) ops).1.next m).map
            payload).flatten]) := by
        simp [runTrace, htn]
      rw [hpoll]
      simp only [List.flatten_append, List.flatten_cons, List.flatten_nil,
        List.append_nil]
      rw [c4, hsplitn]
      simp [List.map_append, List.range_eq_range', OrderingSender.new]

/-- Witness for `ordering_sender_delivery_spec`: the S1 reorder scenario,
records sent in order 1 then 0. -/
theorem ordering_sender_delivery_spec_witness :
    (runTrace (fun i => [i]) (OrderingSender.new 8 0)
        ([SendOp.send 1, SendOp.send 0] ++ [SendOp.poll])).2.flatten =
      ((List.range 2).map (fun i => [i])).flatten :=
  (ordering_sender_delivery_spec (fun i => [i]) 8 0 2
    [SendOp.send 1, SendOp.send 0] (by decide)).2

/-! ## Gateway send-path theorems -/

/-- The claim C4 property: with `total = Specified(n)` and `record_id ≥ n`,
`GatewaySender::send` returns `TooManyRecords` carrying the record id, the
channel id and the declared total, and the carried state is the unchanged
sender — nothing reaches the `OrderingSender` and no close occurs. -/
theorem gateway_send_too_many_records_spec (g : GatewaySender) (n record_id : ℕ)
    (msg : List ℕ) (htot : g.total_records = TotalRecords.specified n)
    (hge : n ≤ record_id) :
    GatewaySender.send g record_id msg =
      GatewayOutcome.errored
        (SendError.tooManyRecords record_id g.channel_id
          (TotalRecords.specified n)) g := by
  simp [GatewaySender.send, htot, TotalRecords.is_specified, hge]

/-- Witness for `gateway_send_too_many_records_spec`: the S2 scenario,
`total = Specified(3)`, `send(3, _)`. -/
theorem gateway_send_too_many_records_spec_witness :
    GatewaySender.send
        ⟨⟨Role.h2, "s2"⟩, OrderingSender.new 12 0, TotalRecords.specified 3⟩
        3 [0] =
      GatewayOutcome.errored
        (SendError.tooManyRecords 3 ⟨Role.h2, "s2"⟩ (TotalRecords.specified 3))
        ⟨⟨Role.h2, "s2"⟩, OrderingSender.new 12 0, TotalRecords.specified 3⟩ :=
  gateway_send_too_many_records_spec
    ⟨⟨Role.h2, "s2"⟩, OrderingSender.new 12 0, TotalRecords.specified 3⟩
    3 3 [0] rfl (by omega)

/-- Counterexample to claim C8: a `SendingEnd::send` call that fails with
`TooManyRecords` still increments both counters, because send.rs:124-131
increments them unconditionally after the inner call returns. -/
theorem sending_end_metrics_counterexample :
    (SendingEnd.send ⟨Role.h1, ⟨Role.h2, "g"⟩⟩ 4
        ⟨⟨Role.h2, "g"⟩, OrderingSender.new 4 0, TotalRecords.specified 1⟩
        ⟨fun _ => 0, fun _ => 0⟩ 1 [9, 9, 9, 9]).1 =
      GatewayOutcome.errored
        (SendError.tooManyRecords 1 ⟨Role.h2, "g"⟩ (TotalRecords.specified 1))
        ⟨⟨Role.h2, "g"⟩, OrderingSender.new 4 0, TotalRecords.specified 1⟩ ∧
    (SendingEnd.send ⟨Role.h1, ⟨Role.h2, "g"⟩⟩ 4
        ⟨⟨Role.h2, "g"⟩, OrderingSender.new 4 0, TotalRecords.specified 1⟩
        ⟨fun _ => 0, fun _ => 0⟩ 1 [9, 9, 9, 9]).2.records_sent ("g", Role.h1) = 1 ∧
    (SendingEnd.send ⟨Role.h1, ⟨Role.h2, "g"⟩⟩ 4
        ⟨⟨Role.h2, "g"⟩, OrderingSender.new 4 0, TotalRecords.specified 1⟩
        ⟨fun _ => 0, fun _ => 0⟩ 1 [9, 9, 9, 9]).2.bytes_sent ("g", Role.h1) = 4 := by
  refine ⟨rfl, ?_, ?_⟩ <;>
    simp [SendingEnd.send, GatewaySender.send, TotalRecords.is_specified,
      bumpMetrics]

/-- The claim C8 property as amended: the counters are incremented by
`(1, S)` at the `(gate, role)` label after the inner `GatewaySender::send`
returns — on success and also on a `TooManyRecords` failure; only a panic
(which unwinds past the metrics calls) leaves them untouched. -/
theorem sending_end_metrics_spec (se : SendingEnd) (msgSize : ℕ)
    (g : GatewaySender) (met : Metrics) (record_id : ℕ) (msg : List ℕ) :
    (∀ s, GatewaySender.send g record_id msg = GatewayOutcome.panicked s →
      SendingEnd.send se msgSize g met record_id msg =
        (GatewayOutcome.panicked s, met)) ∧
    ((∃ e g2, GatewaySender.send g record_id msg = GatewayOutcome.errored e g2) ∨
      (∃ g2, GatewaySender.send g record_id msg = GatewayOutcome.sent g2) →
      (SendingEnd.send se msgSize g met record_id msg).1 =
        GatewaySender.send g record_id msg ∧
      (SendingEnd.send se msgSize g met record_id msg).2.records_sent
          (se.channel_id.gate, se.sender_role) =
        met.records_sent (se.channel_id.gate, se.sender_role) + 1 ∧
      (SendingEnd.send se msgSize g met record_id msg).2.bytes_sent
          (se.channel_id.gate, se.sender_role) =
        met.bytes_sent (se.channel_id.gate, se.sender_role) + msgSize ∧
      (∀ k, k ≠ (se.channel_id.gate, se.sender_role) →
        (SendingEnd.send se msgSize g met record_id msg).2.records_sent k =
          met.records_sent k ∧
        (SendingEnd.send se msgSize g met record_id msg).2.bytes_sent k =
          met.bytes_sent k)) := by
  constructor
  · intro s hs
    simp [SendingEnd.send, hs]
  · intro h
    have hbump : SendingEnd.send se msgSize g met record_id msg =
        (GatewaySender.send g record_id msg,
         bumpMetrics met se.channel_id.gate se.sender_role msgSize) := by
      rcases h with ⟨e, g2, hs⟩ | ⟨g2, hs⟩ <;> simp [SendingEnd.send, hs]
    rw [hbump]
    refine ⟨rfl, by simp [bumpMetrics], by simp [bumpMetrics], ?_⟩
    intro k hk
    constructor <;> simp [bumpMetrics, hk]

/-- Witness for `sending_end_metrics_spec` on a successful concrete send. -/
theorem sending_end_metrics_spec_witness :
    (SendingEnd.send ⟨Role.h1, ⟨Role.h2, "g"⟩⟩ 4
        ⟨⟨Role.h2, "g"⟩, OrderingSender.new 8 0, TotalRecords.specified 2⟩
        ⟨fun _ => 0, fun _ => 0⟩ 0 [1, 2, 3, 4]).2.records_sent ("g", Role.h1) =
      0 + 1 :=
  ((sending_end_metrics_spec ⟨Role.h1, ⟨Role.h2, "g"⟩⟩ 4
      ⟨⟨Role.h2, "g"⟩, OrderingSender.new 8 0, TotalRecords.specified 2⟩
      ⟨fun _ => 0, fun _ => 0⟩ 0 [1, 2, 3, 4]).2
    (Or.inr ⟨_, rfl⟩)).2.1

lemma runGetOrCreate_count (cid : ChannelId) :
    ∀ (args : List (ℕ × TotalRecords × ℕ)) (gs : List (ChannelId × GatewaySender)),
      (alookup gs cid ≠ none → (runGetOrCreate cid gs args).2 = 0) ∧
      (runGetOrCreate cid gs args).2 ≤ 1 := by
  intro args
  induction args with
  | nil => intro gs; exact ⟨fun _ => rfl, by simp [runGetOrCreate]⟩
  | cons a rest ih =>
    intro gs
    obtain ⟨cap, total, msz⟩ := a
    by_cases htot : total.is_specified = false
    · have hrun : runGetOrCreate cid gs ((cap, total, msz) :: rest) = (gs, 0) := by
        simp [runGetOrCreate, get_or_create, htot]
      rw [hrun]
      exact ⟨fun _ => rfl, by omega⟩
    · cases hhit : alookup gs cid with
      | some s =>
        have hrun : runGetOrCreate cid gs ((cap, total, msz) :: rest) =
            ((runGetOrCreate cid gs rest).1, (runGetOrCreate cid gs rest).2) := by
          simp [runGetOrCreate, get_or_create, htot, hhit]
        rw [hrun]
        have h0 := (ih gs).1 (by rw [hhit]; simp)
        exact ⟨fun _ => h0, by omega⟩
      | none =>
        by_cases hmsz : msz = 0
        · have hrun : runGetOrCreate cid gs ((cap, total, msz) :: rest) = (gs, 0) := by
            simp [runGetOrCreate, get_or_create, htot, hhit, hmsz]
          rw [hrun]
          exact ⟨fun _ => rfl, by omega⟩
        · have hrun : runGetOrCreate cid gs ((cap, total, msz) :: rest) =
              ((runGetOrCreate cid
                  (ainsert gs cid
                    ⟨cid, OrderingSender.new
                      (if total.is_indeterminate then msz else cap * msz) 0,
                      total⟩) rest).1,
                1 + (runGetOrCreate cid
                  (ainsert gs cid
                    ⟨cid, OrderingSender.new
                      (if total.is_indeterminate then msz else cap * msz) 0,
                      total⟩) rest).2) := by
            simp [runGetOrCreate, get_or_create, htot, hhit, hmsz]
          rw [hrun]
          have h0 := (ih (ainsert gs cid
              ⟨cid, OrderingSender.new
                (if total.is_indeterminate then msz else cap * msz) 0, total⟩)).1
            (by rw [alookup_ainsert_self]; simp)
          constructor
          · intro hne
            exact absurd rfl hne
          · omega

/-- The claim C9 property: `get_or_create` returns the existing sender and
no stream on a hit; on a miss it constructs exactly one `OrderingSender`
(with the capacity policy of send.rs:159-173), stores it, and hands the
stream back; across any call sequence for one channel the stream is
returned at most once. -/
theorem get_or_create_spec :
    (∀ (gs : List (ChannelId × GatewaySender)) (cid : ChannelId)
        (cap : ℕ) (total : TotalRecords) (msz : ℕ) (s : GatewaySender),
      total.is_specified = true → alookup gs cid = some s →
      get_or_create gs cid cap total msz = PanicOr.ok (gs, s, none)) ∧
    (∀ (gs : List (ChannelId × GatewaySender)) (cid : ChannelId)
        (cap : ℕ) (total : TotalRecords) (msz : ℕ),
      total.is_specified = true → alookup gs cid = none → msz ≠ 0 →
      get_or_create gs cid cap total msz =
        PanicOr.ok
          (ainsert gs cid
            ⟨cid, OrderingSender.new
              (if total.is_indeterminate then msz else cap * msz) 0, total⟩,
           ⟨cid, OrderingSender.new
              (if total.is_indeterminate then msz else cap * msz) 0, total⟩,
           some ⟨cid, OrderingSender.new
              (if total.is_indeterminate then msz else cap * msz) 0, total⟩) ∧
      alookup (ainsert gs cid
          (⟨cid, OrderingSender.new
            (if total.is_indeterminate then msz else cap * msz) 0,
            total⟩ : GatewaySender)) cid =
        some ⟨cid, OrderingSender.new
          (if total.is_indeterminate then msz else cap * msz) 0, total⟩) ∧
    (∀ (cid : ChannelId) (gs : List (ChannelId × GatewaySender))
        (args : List (ℕ × TotalRecords × ℕ)),
      (runGetOrCreate cid gs args).2 ≤ 1) := by
  refine ⟨?_, ?_, ?_⟩
  · intro gs cid cap total msz s htot hhit
    simp [get_or_create, htot, hhit]
  · intro gs cid cap total msz htot hhit hmsz
    constructor
    · simp [get_or_create, htot, hhit, hmsz]
    · exact alookup_ainsert_self gs cid _
  · intro cid gs args
    exact (runGetOrCreate_count cid args gs).2

/-- Witness for `get_or_create_spec`: a hit returns the stored sender with
no stream, and a one-call sequence hands out at most one stream. -/
theorem get_or_create_spec_witness :
    get_or_create
        [(⟨Role.h1, "w"⟩,
          ⟨⟨Role.h1, "w"⟩, OrderingSender.new 8 0, TotalRecords.specified 3⟩)]
        ⟨Role.h1, "w"⟩ 2 (TotalRecords.specified 3) 4 =
      PanicOr.ok
        ([(⟨Role.h1, "w"⟩,
          ⟨⟨Role.h1, "w"⟩, OrderingSender.new 8 0, TotalRecords.specified 3⟩)],
         ⟨⟨Role.h1, "w"⟩, OrderingSender.new 8 0, TotalRecords.specified 3⟩,
         none) ∧
    (runGetOrCreate ⟨Role.h1, "w"⟩ [] [(2, TotalRecords.specified 3, 4)]).2 ≤ 1 :=
  ⟨get_or_create_spec.1
      [(⟨Role.h1, "w"⟩,
        ⟨⟨Role.h1, "w"⟩, OrderingSender.new 8 0, TotalRecords.specified 3⟩)]
      ⟨Role.h1, "w"⟩ 2 (TotalRecords.specified 3) 4
      ⟨⟨Role.h1, "w"⟩, OrderingSender.new 8 0, TotalRecords.specified 3⟩
      rfl (by decide),
    get_or_create_spec.2.2 ⟨Role.h1, "w"⟩ [] [(2, TotalRecords.specified 3, 4)]⟩

lemma collectFrom_none (slots : List (ℕ × List ℕ)) (next : ℕ)
    (h : alookup slots next = none) :
    ∀ fuel, collectFrom slots next fuel = ([], next) := by
  intro fuel
  cases fuel with
  | zero => rfl
  | succ fuel => simp [collectFrom, h]

lemma slotsCorrect_payloadMap (payload : ℕ → List ℕ) (l : List ℕ) :
    ∀ i b, alookup (l.map (fun j => (j, payload j))) i = some b → b = payload i := by
  intro i b h
  rw [alookup_payloadMap] at h
  by_cases hi : i ∈ l
  · rw [if_pos hi] at h
    exact (Option.some.inj h).symm
  · rw [if_neg hi] at h
    exact absurd h (Option.noConfusion)

lemma collect_perm (payload : ℕ → List ℕ) (n : ℕ) (sIdx : List ℕ)
    (hperm : sIdx.Perm (List.range n)) :
    collectFrom (sIdx.map (fun i => (i, payload i))) 0
        (sIdx.map (fun i => (i, payload i))).length =
      (((List.range n).map payload).flatten, n) := by
  have hmem : ∀ i, alookup (sIdx.map (fun j => (j, payload j))) i =
      if i < n then some (payload i) else none := by
    intro i
    rw [alookup_payloadMap]
    by_cases hi : i < n
    · simp [hperm.mem_iff, List.mem_range, hi]
    · simp [hperm.mem_iff, List.mem_range, hi]
  have hlen : (sIdx.map (fun i => (i, payload i))).length = n := by
    simp [hperm.length_eq]
  obtain ⟨m, hcol, hcommit, hmax⟩ :=
    collectFrom_spec (sIdx.map (fun i => (i, payload i))) payload
      (slotsCorrect_payloadMap payload sIdx)
      (sIdx.map (fun i => (i, payload i))).length 0
  have hle : m ≤ n := by
    by_contra hgt
    have := hcommit n (by omega)
    rw [Nat.zero_add, hmem n] at this
    simp at this
  have hge : n ≤ m := by
    by_contra hlt
    rcases hmax with h0 | hf
    · rw [Nat.zero_add, hmem m] at h0
      simp only [ite_eq_right_iff] at h0
      have := h0 (by omega)
      exact Option.some_ne_none _ this
    · rw [hlen] at hf
      omega
  have hm : m = n := by omega
  rw [hcol, hm]
  simp [List.range_eq_range']

lemma runSends_spec (payload : ℕ → List ℕ) (n : ℕ) :
    ∀ (l : List ℕ) (g : GatewaySender),
      g.total_records = TotalRecords.specified n →
      (∀ i ∈ l, i < n) →
      (g.ordering_tx.closed_at = none ∨ g.ordering_tx.closed_at = some n) →
      ∃ g2, runSends payload g l = some g2 ∧
        g2.channel_id = g.channel_id ∧
        g2.total_records = TotalRecords.specified n ∧
        g2.ordering_tx.slots =
          g.ordering_tx.slots ++ l.map (fun i => (i, payload i)) ∧
        g2.ordering_tx.next = g.ordering_tx.next ∧
        g2.ordering_tx.closed_at =
          (if n - 1 ∈ l then some n else g.ordering_tx.closed_at) := by
  intro l
  induction l with
  | nil =>
    intro g htot _ _
    exact ⟨g, rfl, rfl, htot, by simp, rfl, by simp⟩
  | cons i rest ih =>
    intro g htot hlt hcl
    have hi : i < n := hlt i (List.mem_cons_self i rest)
    have hos : g.ordering_tx.send i (payload i) =
        some { g.ordering_tx with
          slots := g.ordering_tx.slots ++ [(i, payload i)] } := by
      rcases hcl with h | h <;>
        simp [OrderingSender.send, h, Nat.not_le.mpr hi]
    have hsend : GatewaySender.send g i (payload i) =
        GatewayOutcome.sent
          { g with ordering_tx :=
              if g.total_records.is_last i then
                ({ g.ordering_tx with
                  slots := g.ordering_tx.slots ++ [(i, payload i)] }).close (i + 1)
              else
                { g.ordering_tx with
                  slots := g.ordering_tx.slots ++ [(i, payload i)] } } := by
      simp [GatewaySender.send, htot, TotalRecords.is_specified,
        Nat.not_le.mpr hi, hos]
    by_cases hlast : i + 1 = n
    · have hlastb : g.total_records.is_last i = true := by
        simp [htot, TotalRecords.is_last, hlast]
      obtain ⟨g2, hrun, hch, htot2, hslots, hnext, hclosed⟩ :=
        ih { g with ordering_tx :=
            ({ g.ordering_tx with
              slots := g.ordering_tx.slots ++ [(i, payload i)] }).close (i + 1) }
          htot (fun j hj => hlt j (List.mem_cons_of_mem i hj))
          (Or.inr (by simp [OrderingSender.close, hlast]))
      refine ⟨g2, ?_, hch, htot2, ?_, hnext, ?_⟩
      · simp only [runSends, hsend, hlastb, if_true]
        exact hrun
      · rw [hslots]
        simp [OrderingSender.close]
      · rw [hclosed]
        have hin : n - 1 ∈ i :: rest := by
          have : i = n - 1 := by omega
          rw [← this]
          exact List.mem_cons_self i rest
        simp [OrderingSender.close, hlast, hin]
    · have hlastb : g.total_records.is_last i = false := by
        simp [htot, TotalRecords.is_last, hlast]
      obtain ⟨g2, hrun, hch, htot2, hslots, hnext, hclosed⟩ :=
        ih { g with ordering_tx :=
            { g.ordering_tx with
              slots := g.ordering_tx.slots ++ [(i, payload i)] } }
          htot (fun j hj => hlt j (List.mem_cons_of_mem i hj)) (by simpa using hcl)
      refine ⟨g2, ?_, hch, htot2, ?_, hnext, ?_⟩
      · simp only [runSends, hsend, hlastb, Bool.false_eq_true, if_false]
        exact hrun
      · rw [hslots]
        simp
      · rw [hclosed]
        have hne : ¬ n - 1 = i := by omega
        simp [List.mem_cons, hne]

/-- The claim C5 property: when `total = Specified(n)`, running the sends of
any permutation of `[0, n)` succeeds (so the position of record `n−1` in
wall-clock order is irrelevant); the successful send of record `n−1` leaves
`close(n)` invoked on the `OrderingSender`; afterwards no further write is
permitted (records `≥ n` are rejected by both layers); and draining the
transport stream delivers records `0 … n−1` in order followed by
end-of-stream. -/
theorem gateway_close_spec (payload : ℕ → List ℕ) (cid : ChannelId)
    (ws sp n : ℕ) (hn : 1 ≤ n) (perm : List ℕ)
    (hperm : perm.Perm (List.range n))
    (hnz : ∀ i, i < n → payload i ≠ []) :
    ∃ g2, runSends payload
        ⟨cid, OrderingSender.new ws sp, TotalRecords.specified n⟩ perm =
          some g2 ∧
      g2.ordering_tx.closed_at = some n ∧
      (∀ i bytes, n ≤ i → g2.ordering_tx.send i bytes = none) ∧
      (∀ i msg, n ≤ i → GatewaySender.send g2 i msg =
        GatewayOutcome.errored
          (SendError.tooManyRecords i cid (TotalRecords.specified n)) g2) ∧
      (drainLoop g2.ordering_tx 2).1.flatten =
        ((List.range n).map payload).flatten ∧
      (drainLoop g2.ordering_tx 2).2 = true := by
  obtain ⟨g2, hrun, hch, htot, hslots, hnext, hclosed⟩ :=
    runSends_spec payload n perm
      ⟨cid, OrderingSender.new ws sp, TotalRecords.specified n⟩
      rfl (fun i hi => List.mem_range.mp (hperm.mem_iff.mp hi)) (Or.inl rfl)
  have hmem1 : n - 1 ∈ perm :=
    hperm.mem_iff.mpr (List.mem_range.mpr (by omega))
  have hcl2 : g2.ordering_tx.closed_at = some n := by
    rw [hclosed, if_pos hmem1]
  have hslots2 : g2.ordering_tx.slots = perm.map (fun i => (i, payload i)) := by
    rw [hslots]
    simp [OrderingSender.new]
  have hnext2 : g2.ordering_tx.next = 0 := by
    rw [hnext]
    rfl
  have hB : ((List.range n).map payload).flatten ≠ [] := by
    intro h
    rw [List.flatten_eq_nil_iff] at h
    exact hnz 0 (by omega)
      (h (payload 0) (List.mem_map.mpr ⟨0, List.mem_range.mpr (by omega), rfl⟩))
  have htn : g2.ordering_tx.take_next =
      (TakeNext.ready (((List.range n).map payload).flatten),
       { g2.ordering_tx with next := n }) := by
    apply take_next_ready _ _ _ _ hB
    rw [hslots2, hnext2]
    exact collect_perm payload n perm hperm
  have hlook : alookup ({ g2.ordering_tx with next := n }).slots n = none := by
    show alookup g2.ordering_tx.slots n = none
    rw [hslots2, alookup_payloadMap]
    simp [hperm.mem_iff, List.mem_range]
  have htn2 : ({ g2.ordering_tx with next := n }).take_next =
      (TakeNext.closed, { g2.ordering_tx with next := n }) := by
    have hcol2 := collectFrom_none _ _ hlook
      ({ g2.ordering_tx with next := n }).slots.length
    simp [OrderingSender.take_next, hcol2, hcl2]
  have hdrain : drainLoop g2.ordering_tx 2 =
      ([((List.range n).map payload).flatten], true) := by
    simp [drainLoop, htn, htn2]
  refine ⟨g2, hrun, hcl2, ?_, ?_, ?_, ?_⟩
  · intro i bytes hni
    simp [OrderingSender.send, hcl2, hni]
  · intro i msg hni
    have h := gateway_send_too_many_records_spec g2 n i msg htot hni
    rw [hch] at h
    exact h
  · rw [hdrain]
    simp
  · rw [hdrain]

/-- Witness for `gateway_close_spec`: `n = 2` with the last record sent
first. -/
theorem gateway_close_spec_witness :
    ∃ g2, runSends (fun i => [i])
        ⟨⟨Role.h3, "w"⟩, OrderingSender.new 8 0, TotalRecords.specified 2⟩
        [1, 0] = some g2 ∧
      g2.ordering_tx.closed_at = some 2 ∧
      (∀ i bytes, 2 ≤ i → g2.ordering_tx.send i bytes = none) ∧
      (∀ i msg, 2 ≤ i → GatewaySender.send g2 i msg =
        GatewayOutcome.errored
          (SendError.tooManyRecords i ⟨Role.h3, "w"⟩ (TotalRecords.specified 2))
          g2) ∧
      (drainLoop g2.ordering_tx 2).1.flatten =
        ((List.range 2).map (fun i => [i])).flatten ∧
      (drainLoop g2.ordering_tx 2).2 = true :=
  gateway_close_spec (fun i => [i]) ⟨Role.h3, "w"⟩ 8 0 2 (by omega) [1, 0]
    (by decide) (by decide)

end IpaCore
